import Mathlib

/-!
A shallow embedding of `k-means.c` and its verification.

The clustering engine of `k-means.c` (`getDistance`, `getInitialCentroids`,
`getNearestCentroids`, `getNewCentroids`, `compareNearestCentroids`, `kmeans`)
is embedded as executable Lean functions.

Modelling conventions.

* `DIMENSIONS` is 2: a data tuple `int data[i][2]` is a pair `Int × Int`, the
  array `data` of `numTuples` tuples is a list and `numTuples` is its length.
* A C `float` is modelled in exact arithmetic: a value is a rational number,
  `+inf`, `-inf` or `NaN` (`FVal`).  No rounding and no overflow take place;
  division by zero and the propagation of `NaN` follow IEEE 754.
* Integer division or remainder by zero is undefined behaviour in C and is
  modelled as the result `none`.
* The `do ... while` loop of `kmeans` carries a fuel argument that bounds the
  number of iterations; the result `none` of the loop means that the fuel ran
  out before convergence was flagged.
-/

namespace KMeans

/-! ## Exact model of `float` -/

/-- A C `float` in exact arithmetic: a finite rational, an infinity or NaN. -/
inductive FVal where
  | fin (q : ℚ)
  | pinf
  | ninf
  | nan
deriving DecidableEq, Repr

namespace FVal

/-- Conversion `int → float`. -/
def ofInt (n : Int) : FVal := fin (n : ℚ)

/-- Unary minus. -/
def neg : FVal → FVal
  | fin q => fin (-q)
  | pinf => ninf
  | ninf => pinf
  | nan => nan

/-- Addition `a + b`. -/
def add : FVal → FVal → FVal
  | fin a, fin b => fin (a + b)
  | nan, _ => nan
  | _, nan => nan
  | pinf, ninf => nan
  | ninf, pinf => nan
  | pinf, _ => pinf
  | _, pinf => pinf
  | ninf, _ => ninf
  | _, ninf => ninf

/-- Subtraction `a - b`. -/
def sub (a b : FVal) : FVal := add a (neg b)

/-- Squaring `pow(x, 2.0)`. -/
def sq : FVal → FVal
  | fin q => fin (q * q)
  | pinf => pinf
  | ninf => pinf
  | nan => nan

/-- Division `x / n` of a float by an `int` (the divisor is converted to
`float` first, so a zero divisor is `+0.0`). -/
def divInt : FVal → Int → FVal
  | nan, _ => nan
  | fin q, n =>
    if n = 0 then (if 0 < q then pinf else if q < 0 then ninf else nan)
    else fin (q / (n : ℚ))
  | pinf, n => if 0 ≤ n then pinf else ninf
  | ninf, n => if 0 ≤ n then ninf else pinf

/-- Comparison `a < b`; false as soon as one side is NaN. -/
def lt : FVal → FVal → Bool
  | fin a, fin b => decide (a < b)
  | fin _, pinf => true
  | ninf, fin _ => true
  | ninf, pinf => true
  | _, _ => false

end FVal

/-! ## Data -/

/-- A data tuple `int data[i][DIMENSIONS]`, `DIMENSIONS = 2`. -/
abbrev Point := Int × Int

/-- A centroid `float centroid[i][DIMENSIONS]`. -/
abbrev Centroid := FVal × FVal

/-- The accumulator `float sum[2]`. -/
abbrev Sum2 := FVal × FVal

/-- The initial value `{ 0.0, 0.0 }` of `sum`. -/
def zeroSum : Sum2 := (FVal.fin 0, FVal.fin 0)

/-- The statements `sum[0] += data[j][0]; sum[1] += data[j][1];`. -/
def addPoint (sum : Sum2) (p : Point) : Sum2 :=
  (FVal.add sum.1 (FVal.ofInt p.1), FVal.add sum.2 (FVal.ofInt p.2))

/-- The statements `sum[0] = sum[0]/n; sum[1] = sum[1]/n;`. -/
def divSum (sum : Sum2) (n : Int) : Sum2 :=
  (FVal.divInt sum.1 n, FVal.divInt sum.2 n)

/-! ## `getDistance` -/

/-- The value `pow(radicand, 0.5)`, kept symbolically by its radicand. -/
structure Root where
  radicand : FVal
deriving DecidableEq, Repr

/-- Comparison `pow(r, 0.5) < pow(s, 0.5)`.  On `[0, +inf]` the square root
is strictly increasing and it maps NaN to NaN, so the comparison of two roots
is the comparison of their radicands. -/
def Root.lt (r s : Root) : Bool := FVal.lt r.radicand s.radicand

/-- The function `getDistance(a, b)`: the Euclidean distance
`pow(pow(b[0]-a[0], 2.0) + pow(b[1]-a[1], 2.0), 0.5)`. -/
def getDistance (a : Centroid) (b : Point) : Root :=
  ⟨FVal.add (FVal.sq (FVal.sub (FVal.ofInt b.1) a.1))
            (FVal.sq (FVal.sub (FVal.ofInt b.2) a.2))⟩

/-! ## `getInitialCentroids` -/

/-- The mutable state of the main loop of `getInitialCentroids`. -/
structure InitState where
  sum : Sum2
  numComputed : Nat
  new_centroid : List Centroid
deriving DecidableEq, Repr

/-- The loop `for(i=0; i<numTuples; ++i)` of `getInitialCentroids`, entered at
index `i` with `rest = data[i..numTuples-1]`.  The result is the state at the
exit of the loop, or `none` when `(i+1) % clusterSize` is taken with
`clusterSize = 0`. -/
def initLoop (k clusterSize numTuples : Nat) :
    Nat → List Point → InitState → Option InitState
  | _, [], st => some st
  | i, p :: rest, st =>
    -- for(j=0; j<DIMENSIONS; ++j) sum[j] += data[i][j];
    let sum := addPoint st.sum p
    if st.numComputed + 1 = k then
      -- for(j=i; j<numTuples; j++) for(i=0; i<DIMENSIONS; ++i) sum[i] += data[j][i];
      let sum := (p :: rest).foldl addPoint sum
      let lastClusterSize : Int := (numTuples : Int) - (clusterSize : Int) * ((k : Int) - 1)
      let sum := divSum sum lastClusterSize
      -- new_centroid[numComputed] = sum; ++numComputed; sum = 0; break;
      some { sum := zeroSum
             numComputed := st.numComputed + 1
             new_centroid := st.new_centroid.set st.numComputed sum }
    else if clusterSize = 0 then none
    else if (i + 1) % clusterSize = 0 then
      let sum := divSum sum (clusterSize : Int)
      initLoop k clusterSize numTuples (i + 1) rest
        { sum := zeroSum
          numComputed := st.numComputed + 1
          new_centroid := st.new_centroid.set st.numComputed sum }
    else
      initLoop k clusterSize numTuples (i + 1) rest { st with sum := sum }

/-- The function `getInitialCentroids(k, data, numTuples)`.  The result `none`
stands for the undefined behaviour of `numTuples/k` with `k = 0` and of `% clusterSize` with
`clusterSize = 0`. -/
def getInitialCentroids (k : Nat) (data : List Point) : Option (List Centroid) :=
  if k = 0 then none
  else
    let clusterSize := data.length / k
    (initLoop k clusterSize data.length 0 data
      { sum := zeroSum, numComputed := 0,
        new_centroid := List.replicate k (FVal.fin 0, FVal.fin 0) }).map
      (fun st => st.new_centroid)

/-! ## `getNearestCentroids` -/

/-- The element `centroid[j]`.  The array has `k` entries and the program reads
it at indices below `k` only; the value given to other indices is never used. -/
def centroidAt (centroid : List Centroid) (j : Nat) : Centroid :=
  centroid.getD j (FVal.nan, FVal.nan)

/-- The loop `for(j=1; j<k; ++j)` of `getNearestCentroids` for one tuple,
entered at index `j` with `n = k - j` iterations left. -/
def nearestLoop (centroid : List Centroid) (p : Point) : Nat → Nat → Nat → Nat
  | _, 0, indexClosestMean => indexClosestMean
  | j, n + 1, indexClosestMean =>
    nearestLoop centroid p (j + 1) n
      (if Root.lt (getDistance (centroidAt centroid j) p)
            (getDistance (centroidAt centroid indexClosestMean) p)
       then j else indexClosestMean)

/-- The function `getNearestCentroids(k, centroid, data, numTuples)`: one scan of
the centroids for every tuple. -/
def getNearestCentroids (k : Nat) (centroid : List Centroid) (data : List Point) : List Nat :=
  data.map (fun p => nearestLoop centroid p 1 (k - 1) 0)

/-! ## `getNewCentroids` -/

/-- The loop `for(j=0; j<numTuples; ++j)` of `getNewCentroids` for cluster `i`,
over the pairs `(nearestMeans[j], data[j])`, on the state `(sum, clusterSize)`. -/
def clusterLoop (i : Nat) : List (Nat × Point) → Sum2 × Nat → Sum2 × Nat
  | [], acc => acc
  | (m, p) :: rest, acc =>
    clusterLoop i rest (if m = i then (addPoint acc.1 p, acc.2 + 1) else acc)

/-- The mutable state of the outer loop of `getNewCentroids`. -/
structure NewState where
  sum : Sum2
  clusterSize : Nat
  new_centroid : List Centroid
deriving DecidableEq, Repr

/-- One iteration of the loop `for(i=0; i<k; ++i)` of `getNewCentroids`. -/
def newCentroidStep (tuples : List (Nat × Point)) (st : NewState) (i : Nat) : NewState :=
  let acc := clusterLoop i tuples (st.sum, st.clusterSize)
  let sum := divSum acc.1 (acc.2 : Int)
  { sum := zeroSum, clusterSize := 0, new_centroid := st.new_centroid.set i sum }

/-- The function `getNewCentroids(k, nearestMeans, data, numTuples)`: the slots
are zero-filled by `calloc` and written by the loop `for(i=0; i<k; ++i)`. -/
def getNewCentroids (k : Nat) (nearestMeans : List Nat) (data : List Point) : List Centroid :=
  ((List.range k).foldl (newCentroidStep (nearestMeans.zip data))
    { sum := zeroSum, clusterSize := 0,
      new_centroid := List.replicate k (FVal.fin 0, FVal.fin 0) }).new_centroid

/-! ## `compareNearestCentroids` -/

/-- The loop `for(i=0; i<numTuples; ++i) if(last[i] != current[i]) return 0;`
followed by `return 1`, entered at index `i` with `n` iterations left.  Both
arrays have `numTuples` entries, so the default of `getD` is never read. -/
def compareLoop (last current : List Nat) : Nat → Nat → Int
  | _, 0 => 1
  | i, n + 1 =>
    if last.getD i 0 ≠ current.getD i 0 then 0
    else compareLoop last current (i + 1) n

/-- The function `compareNearestCentroids(last, current, numTuples)`; a null pointer is
`none`. -/
def compareNearestCentroids (last current : Option (List Nat)) (numTuples : Nat) : Int :=
  match last, current with
  | some l, some c => compareLoop l c 0 numTuples
  | _, _ => 0

/-! ## `kmeans` -/

/-- The `do ... while( convergence != 1 )` loop of `kmeans` with at most `fuel`
iterations.  The result is the returned `nearestMeans` together with the
number of executed iterations. -/
def kmeansLoop (k : Nat) (data : List Point) :
    Nat → List Centroid → List Nat → Option (List Nat × Nat)
  | 0, _, _ => none
  | fuel + 1, centroid, lastMeans =>
    let nearestMeans := getNearestCentroids k centroid data
    let centroid := getNewCentroids k nearestMeans data
    let convergence :=
      compareNearestCentroids (some lastMeans) (some nearestMeans) data.length
    -- memcpy( lastMeans, nearestMeans, numTuples*sizeof(int) );
    if convergence ≠ 1 then
      (kmeansLoop k data fuel centroid nearestMeans).map (fun r => (r.1, r.2 + 1))
    else some (nearestMeans, 1)

/-- The function `kmeans(k, data, numTuples)` with at most `fuel` loop
iterations; `lastMeans` is zero-filled by `calloc`. -/
def kmeans (k : Nat) (data : List Point) (fuel : Nat) : Option (List Nat × Nat) :=
  match getInitialCentroids k data with
  | none => none
  | some centroid => kmeansLoop k data fuel centroid (List.replicate data.length 0)

/-! ## Notions used to state the properties -/

/-- A centroid whose two coordinates are finite. -/
def finCentroid (c : ℚ × ℚ) : Centroid := (FVal.fin c.1, FVal.fin c.2)

/-- The square of the Euclidean distance between a centre and a data tuple. -/
def distSq (c : ℚ × ℚ) (p : Point) : ℚ :=
  ((p.1 : ℚ) - c.1) * ((p.1 : ℚ) - c.1) + ((p.2 : ℚ) - c.2) * ((p.2 : ℚ) - c.2)

/-- The sum of the first coordinates of a list of tuples. -/
def sumX (ps : List Point) : ℚ := (ps.map (fun p => (p.1 : ℚ))).sum

/-- The sum of the second coordinates of a list of tuples. -/
def sumY (ps : List Point) : ℚ := (ps.map (fun p => (p.2 : ℚ))).sum

/-- The component-wise mean of a list of tuples: the coordinate sums divided by
the number of tuples. -/
def mean (ps : List Point) : ℚ × ℚ :=
  (sumX ps / (ps.length : ℚ), sumY ps / (ps.length : ℚ))

/-- The tuples `data[j]` with `nearestMeans[j] = c`, in index order. -/
def clusterPoints (c : Nat) (tuples : List (Nat × Point)) : List Point :=
  (tuples.filter (fun t => t.1 = c)).map Prod.snd

/-- The `b`-th block of `blockSize` consecutive tuples: the tuples of index
`b*blockSize .. (b+1)*blockSize - 1`. -/
def block (data : List Point) (blockSize b : Nat) : List Point :=
  (data.drop (b * blockSize)).take blockSize

/-- The tuples of the final block of an initialisation with `k` centroids: the
tuples of index `blockSize*(k-1) .. N-1`. -/
def lastBlock (data : List Point) (blockSize k : Nat) : List Point :=
  data.drop (blockSize * (k - 1))

/-- The value the code stores in the final centroid slot: the coordinate sums
of the final block with its first tuple added once more, divided by the size of
the final block. -/
def lastCentroid (tail : List Point) : ℚ × ℚ :=
  (((tail.headD (0, 0)).1 + sumX tail) / (tail.length : ℚ),
   ((tail.headD (0, 0)).2 + sumY tail) / (tail.length : ℚ))

/-- The assignment vectors computed by the iterations that the loop of `kmeans`
executes within `fuel` iterations, in order. -/
def kmeansTrace (k : Nat) (data : List Point) :
    Nat → List Centroid → List Nat → List (List Nat)
  | 0, _, _ => []
  | fuel + 1, centroid, lastMeans =>
    let nearestMeans := getNearestCentroids k centroid data
    let centroid := getNewCentroids k nearestMeans data
    let convergence :=
      compareNearestCentroids (some lastMeans) (some nearestMeans) data.length
    if convergence ≠ 1 then nearestMeans :: kmeansTrace k data fuel centroid nearestMeans
    else [nearestMeans]

/-- The assignment vectors computed by the iterations that `kmeans` executes
within `fuel` iterations. -/
def kmeansAssignments (k : Nat) (data : List Point) (fuel : Nat) : List (List Nat) :=
  match getInitialCentroids k data with
  | none => []
  | some centroid => kmeansTrace k data fuel centroid (List.replicate data.length 0)

/-- The sum of the squared norms of a list of tuples. -/
def sumSq (ps : List Point) : ℚ :=
  (ps.map (fun p => (p.1 : ℚ) * (p.1 : ℚ) + (p.2 : ℚ) * (p.2 : ℚ))).sum

/-- The sum of the squared distances of a list of tuples to one centre. -/
def sumDist (x : ℚ × ℚ) (ps : List Point) : ℚ := (ps.map (distSq x)).sum

/-- The means of the clusters `0 .. k-1` of an assignment. -/
def means (k : Nat) (tuples : List (Nat × Point)) : List (ℚ × ℚ) :=
  (List.range k).map (fun c => mean (clusterPoints c tuples))

/-- The within-cluster sum of squares of an assignment for given centres. -/
def cost (C : List (ℚ × ℚ)) (tuples : List (Nat × Point)) : ℚ :=
  (tuples.map (fun t => distSq (C.getD t.1 0) t.2)).sum

/-- The potential of an assignment: its within-cluster sum of squares for the
means of its own clusters, and the sum of its labels. -/
def potential (k : Nat) (data : List Point) (A : List Nat) : ℚ × Nat :=
  (cost (means k (A.zip data)) (A.zip data), A.sum)

/-- The lexicographic order on potentials. -/
def potLt (x y : ℚ × Nat) : Prop := x.1 < y.1 ∨ (x.1 = y.1 ∧ x.2 < y.2)

/-! ## `writeOutput` -/

/-- The text printed by `fprintf`/`printf` with the format `"%d %d %d \n"`. -/
def formatLine (x y label : Int) : String :=
  toString x ++ " " ++ toString y ++ " " ++ toString label ++ " \n"

/-- The loop `for(i=0; i<numTuples; ++i) fprintf(outputFile, "%d %d %d \n", ...)`
of the branch of `writeOutput` that writes `output.txt`, entered at index `i`
with `n` iterations left; the result is the list of the lines written. -/
def writeFileLoop (data : List Point) (clusters : List Nat) : Nat → Nat → List String
  | _, 0 => []
  | i, n + 1 =>
    formatLine (data.getD i (0, 0)).1 (data.getD i (0, 0)).2 ((clusters.getD i 0 : Int) + 1)
      :: writeFileLoop data clusters (i + 1) n

/-- The loop `for(i=0; i<numTuples; ++i) printf("%d %d %d \n", ...)` of the
fallback branch of `writeOutput`, entered at index `i` with `n` iterations
left; the result is the list of the lines printed. -/
def writeStdoutLoop (data : List Point) (clusters : List Nat) : Nat → Nat → List String
  | _, 0 => []
  | i, n + 1 =>
    formatLine (data.getD i (0, 0)).1 (data.getD i (0, 0)).2 ((clusters.getD i 0 : Int) + 1)
      :: writeStdoutLoop data clusters (i + 1) n

/-- What `writeOutput` writes: the lines of `output.txt` when the file could be
opened, and the texts sent to `stdout` and to `stderr`. -/
structure Output where
  file : Option (List String)
  stdout : List String
  stderr : List String
deriving DecidableEq, Repr

/-- The function `writeOutput(data, clusters, outputFile, numTuples)`; `canOpen`
tells whether `fopen("output.txt", "w")` succeeds. -/
def writeOutput (data : List Point) (clusters : List Nat) (canOpen : Bool)
    (numTuples : Nat) : Output :=
  if canOpen then
    { file := some (writeFileLoop data clusters 0 numTuples)
      stdout := ["Wrote results to output.txt\n"]
      stderr := [] }
  else
    { file := none
      stdout := writeStdoutLoop data clusters 0 numTuples
      stderr := ["Error opening output file; printing to stdout.\n"] }

/-! ## `checkArgs` and `main` -/

/-- The function `checkArgs(argc, argv, k, fileName)`.  The argument `file` is
the outcome of `fopen(fileName, "r")`: `none` when the file cannot be opened,
otherwise the tuples that `getData` reads from it.  A call of `exit(1)` is the
result `Except.error 1`. -/
def checkArgs (argc : Int) (k : Int) (file : Option (List Point)) :
    Except Int (List Point) :=
  if argc ≠ 3 then Except.error 1
  else if k < 0 then Except.error 1
  else
    match file with
    | none => Except.error 1
    | some inputFile => Except.ok inputFile

/-- What a run of `main` does: its exit code (`none` when the run has undefined
behaviour or its loop does not stop within the fuel), the arguments of the
call of `kmeans` when the call is made, and what `writeOutput` writes. -/
structure Run where
  exitCode : Option Int
  kmeansArgs : Option (Int × List Point)
  output : Option Output
deriving DecidableEq, Repr

/-- The function `main(argc, argv)`, with `k` the value of `atoi(argv[1])`.
With `argc < 2` the pointer `argv[1]` is null and `atoi` reads it.  The
messages that `main` prints itself are left out. -/
def main (argc : Int) (k : Int) (file : Option (List Point)) (canOpen : Bool)
    (fuel : Nat) : Run :=
  if argc < 2 then { exitCode := none, kmeansArgs := none, output := none }
  else
    match checkArgs argc k file with
    | Except.error code => { exitCode := some code, kmeansArgs := none, output := none }
    | Except.ok data =>
      -- data = getData( inputFile, numTuples );
      if (data.length : Int) ≤ k then
        { exitCode := some 1, kmeansArgs := none, output := none }
      else
        match kmeans k.toNat data fuel with
        | none => { exitCode := none, kmeansArgs := some (k, data), output := none }
        | some (clusters, _) =>
          { exitCode := some 0, kmeansArgs := some (k, data)
            output := some (writeOutput data clusters canOpen data.length) }

/-! ## The memory accesses and divisions of `getInitialCentroids` -/

/-- The operations of `getInitialCentroids` that are defined only for some
operands: a read of `data[index]`, the integer division `numTuples/k`, the
remainder `(i+1) % clusterSize`, a division of `sum` by an integer converted to
`float`, and a write to `new_centroid[slot]`. -/
inductive InitEvent where
  | read (index : Nat)
  | intDiv (divisor : Nat)
  | remainder (divisor : Nat)
  | divide (divisor : Int)
  | write (slot : Nat)
deriving DecidableEq, Repr

/-- The slot written by an event, when the event is a write. -/
def InitEvent.slot? : InitEvent → Option Nat
  | InitEvent.write slot => some slot
  | _ => none

/-- The operations performed by the loop `for(i=0; i<numTuples; ++i)` of
`getInitialCentroids`, in order, entered at index `i` with `n = numTuples - i`
iterations left and `numComputed` centroids stored.  The list ends after a
remainder by zero, whose behaviour is undefined. -/
def initEvents (k clusterSize numTuples : Nat) : Nat → Nat → Nat → List InitEvent
  | 0, _, _ => []
  | n + 1, i, numComputed =>
    -- sum[j] += data[i][j];
    InitEvent.read i ::
    (if numComputed + 1 = k then
      -- for(j=i; j<numTuples; j++) sum[i] += data[j][i];
      (List.range' i (numTuples - i)).map InitEvent.read ++
        [InitEvent.divide ((numTuples : Int) - (clusterSize : Int) * ((k : Int) - 1)),
         InitEvent.write numComputed]
    else
      InitEvent.remainder clusterSize ::
      (if clusterSize = 0 then []
       else if (i + 1) % clusterSize = 0 then
         InitEvent.divide (clusterSize : Int) :: InitEvent.write numComputed ::
           initEvents k clusterSize numTuples n (i + 1) (numComputed + 1)
       else initEvents k clusterSize numTuples n (i + 1) numComputed))

/-- The operations performed by `getInitialCentroids(k, data, numTuples)`, in
order, up to the first one whose behaviour is undefined. -/
def getInitialCentroidsEvents (k : Nat) (data : List Point) : List InitEvent :=
  InitEvent.intDiv k ::
  (if k = 0 then []
   else initEvents k (data.length / k) data.length data.length 0 0)

/-- The point list shifted by the integer offset `(dx, dy)`. -/
def shift (dx dy : Int) (data : List Point) : List Point :=
  data.map (fun p => (p.1 + dx, p.2 + dy))

/-! ## Verified properties -/

/-! ## The convergence detector -/

lemma compareLoop_eq_one_iff (l c : List Nat) (n : Nat) :
    ∀ i, compareLoop l c i n = 1 ↔ ∀ j, i ≤ j → j < i + n → l.getD j 0 = c.getD j 0 := by
  induction n with
  | zero =>
    intro i
    simp only [compareLoop, true_iff]
    intro j h1 h2
    omega
  | succ n ih =>
    intro i
    unfold compareLoop
    by_cases h : l.getD i 0 = c.getD i 0
    · simp only [h, ne_eq, not_true_eq_false, if_false, ih]
      constructor
      · intro H j h1 h2
        rcases Nat.eq_or_lt_of_le h1 with h3 | h3
        · subst h3; exact h
        · exact H j h3 (by omega)
      · intro H j h1 h2
        exact H j (by omega) (by omega)
    · simp only [ne_eq, h, not_false_eq_true, if_true]
      constructor
      · intro H; exact absurd H (by decide)
      · intro H; exact absurd (H i (le_refl i) (by omega)) h

/-- Claim C7. `compareNearestCentroids` returns 1 exactly when both vectors are
present and agree on every index below `numTuples`; with an absent previous
vector it returns 0. -/
theorem compareNearestCentroids_spec (last current : Option (List Nat)) (numTuples : Nat) :
    (compareNearestCentroids last current numTuples = 1 ↔
      ∃ l c, last = some l ∧ current = some c ∧
        ∀ i, i < numTuples → l.getD i 0 = c.getD i 0) ∧
    compareNearestCentroids none current numTuples = 0 := by
  refine ⟨?_, ?_⟩
  · cases last with
    | none => simp [compareNearestCentroids]
    | some l =>
      cases current with
      | none => simp [compareNearestCentroids]
      | some c =>
        simp only [compareNearestCentroids, compareLoop_eq_one_iff, Option.some.injEq,
          zero_le, zero_add, true_implies]
        constructor
        · intro H; exact ⟨l, c, rfl, rfl, H⟩
        · rintro ⟨l', c', rfl, rfl, H⟩; exact H
  · cases current <;> rfl

/-! ## Range of the assignment step -/

lemma nearestLoop_lt (centroid : List Centroid) (p : Point) (n : Nat) :
    ∀ j best, best < j → nearestLoop centroid p j n best < j + n := by
  induction n with
  | zero => intro j best h; simpa [nearestLoop] using h
  | succ n ih =>
    intro j best h
    unfold nearestLoop
    have := ih (j + 1)
      (if Root.lt (getDistance (centroidAt centroid j) p)
          (getDistance (centroidAt centroid best) p) then j else best)
      (by split <;> omega)
    omega

lemma getNearestCentroids_length (k : Nat) (centroid : List Centroid) (data : List Point) :
    (getNearestCentroids k centroid data).length = data.length := by
  simp [getNearestCentroids]

lemma getNearestCentroids_lt (k : Nat) (hk : 1 ≤ k) (centroid : List Centroid)
    (data : List Point) : ∀ x ∈ getNearestCentroids k centroid data, x < k := by
  intro x hx
  simp only [getNearestCentroids, List.mem_map] at hx
  obtain ⟨p, _, rfl⟩ := hx
  have := nearestLoop_lt centroid p (k - 1) 1 0 (by omega)
  omega

lemma kmeansLoop_result (k : Nat) (data : List Point) (fuel : Nat) :
    ∀ centroid lastMeans r, kmeansLoop k data fuel centroid lastMeans = some r →
      ∃ c, r.1 = getNearestCentroids k c data := by
  induction fuel with
  | zero => intro centroid lastMeans r h; simp [kmeansLoop] at h
  | succ fuel ih =>
    intro centroid lastMeans r h
    unfold kmeansLoop at h
    simp only at h
    split at h
    · simp only [Option.map_eq_some'] at h
      obtain ⟨r', hr', rfl⟩ := h
      exact ih _ _ r' hr'
    · simp only [Option.some.injEq] at h
      subst h
      exact ⟨centroid, rfl⟩

/-- Claim C6. Whenever `kmeans` returns on a valid input (`1 ≤ k < N`), the
returned assignment vector has exactly `N` entries and each lies in `[0, k-1]`. -/
theorem kmeans_assignment_range (k : Nat) (data : List Point) (hk : 1 ≤ k)
    (hN : k < data.length) (fuel : Nat) (r : List Nat × Nat)
    (h : kmeans k data fuel = some r) :
    r.1.length = data.length ∧ ∀ x ∈ r.1, x < k := by
  unfold kmeans at h
  split at h
  · exact absurd h (by simp)
  · obtain ⟨c, hc⟩ := kmeansLoop_result k data fuel _ _ r h
    rw [hc]
    exact ⟨getNearestCentroids_length k c data, getNearestCentroids_lt k hk c data⟩

theorem kmeans_assignment_range_witness :
    ([0,0,0,1,1,1] : List Nat).length = 6 ∧ ∀ x ∈ ([0,0,0,1,1,1] : List Nat), x < 2 :=
  kmeans_assignment_range 2 [(0,0),(1,0),(0,1),(10,10),(11,10),(10,11)] (by decide)
    (by decide) 2 ([0,0,0,1,1,1], 2) (by decide!)

/-- Claim C8. On the six points of scenario 1 with `k = 2` the loop of `kmeans`
stops after two iterations and returns a vector in which points 0, 1, 2 share
one label and points 3, 4, 5 share the other. -/
theorem kmeans_scenario1 :
    ∃ r : List Nat,
      kmeans 2 [(0,0),(1,0),(0,1),(10,10),(11,10),(10,11)] 2 = some (r, 2) ∧
      r.length = 6 ∧
      r.getD 0 0 = r.getD 1 0 ∧ r.getD 1 0 = r.getD 2 0 ∧
      r.getD 3 0 = r.getD 4 0 ∧ r.getD 4 0 = r.getD 5 0 ∧
      r.getD 0 0 ≠ r.getD 3 0 :=
  ⟨[0,0,0,1,1,1], by decide!, by decide, by decide, by decide, by decide, by decide, by decide⟩

/-! ## The single-cluster case -/

lemma getNearestCentroids_one (centroid : List Centroid) (data : List Point) :
    getNearestCentroids 1 centroid data = List.replicate data.length 0 := by
  induction data with
  | nil => rfl
  | cons p rest ih =>
    simp only [getNearestCentroids, List.map_cons, List.length_cons, List.replicate_succ] at ih ⊢
    rw [ih]
    rfl

lemma getInitialCentroids_one_isSome (data : List Point) (h : data ≠ []) :
    ∃ c, getInitialCentroids 1 data = some c := by
  cases data with
  | nil => exact absurd rfl h
  | cons p rest => simp [getInitialCentroids, initLoop]

lemma compareNearestCentroids_self (l : List Nat) (n : Nat) :
    compareNearestCentroids (some l) (some l) n = 1 := by
  simp only [compareNearestCentroids, compareLoop_eq_one_iff]
  intro j _ _
  trivial

/-- Claim C10. For `k = 1` and at least two points, `kmeans` executes its loop
body exactly once and returns the all-zero assignment vector of length `N`. -/
theorem kmeans_single_cluster (data : List Point) (hN : 2 ≤ data.length) (fuel : Nat) :
    kmeans 1 data (fuel + 1) = some (List.replicate data.length 0, 1) := by
  have hne : data ≠ [] := by
    intro h
    rw [h] at hN
    simp at hN
  obtain ⟨c, hc⟩ := getInitialCentroids_one_isSome data hne
  simp only [kmeans, hc, kmeansLoop, getNearestCentroids_one, compareNearestCentroids_self,
    ne_eq, not_true_eq_false, if_false]

theorem kmeans_single_cluster_witness :
    kmeans 1 [(3, 4), (-1, 7)] (0 + 1) =
      some (List.replicate ([(3, 4), (-1, 7)] : List Point).length 0, 1) :=
  kmeans_single_cluster [(3, 4), (-1, 7)] (by decide) 0

/-! ## The assignment step on finite centroids -/

@[simp] lemma FVal.add_fin (a b : ℚ) : FVal.add (FVal.fin a) (FVal.fin b) = FVal.fin (a + b) := rfl

@[simp] lemma FVal.neg_fin (a : ℚ) : FVal.neg (FVal.fin a) = FVal.fin (-a) := rfl

@[simp] lemma FVal.sub_fin (a b : ℚ) : FVal.sub (FVal.fin a) (FVal.fin b) = FVal.fin (a - b) := by
  simp [FVal.sub, sub_eq_add_neg]

@[simp] lemma FVal.sq_fin (a : ℚ) : FVal.sq (FVal.fin a) = FVal.fin (a * a) := rfl

@[simp] lemma FVal.lt_fin (a b : ℚ) : FVal.lt (FVal.fin a) (FVal.fin b) = decide (a < b) := rfl

lemma FVal.divInt_fin (a : ℚ) (n : Int) (hn : n ≠ 0) :
    FVal.divInt (FVal.fin a) n = FVal.fin (a / (n : ℚ)) := by
  simp [FVal.divInt, hn]

lemma getDistance_finCentroid (c : ℚ × ℚ) (p : Point) :
    getDistance (finCentroid c) p = ⟨FVal.fin (distSq c p)⟩ := by
  simp [getDistance, finCentroid, distSq, FVal.ofInt]

lemma centroidAt_map_fin (cs : List (ℚ × ℚ)) (j : Nat) (hj : j < cs.length) :
    centroidAt (cs.map finCentroid) j = finCentroid (cs.getD j 0) := by
  simp [centroidAt, List.getD_eq_getElem, hj]

/-- Invariant of the scan `for(j=1; j<k; ++j)`: the running index is the lowest
index of a nearest centroid among those scanned so far. -/
lemma nearestLoop_argmin (cs : List (ℚ × ℚ)) (p : Point) (n : Nat) :
    ∀ j best, best < j → j + n ≤ cs.length →
      (∀ m, m < j → distSq (cs.getD best 0) p ≤ distSq (cs.getD m 0) p) →
      (∀ m, m < best → distSq (cs.getD best 0) p < distSq (cs.getD m 0) p) →
      nearestLoop (cs.map finCentroid) p j n best < j + n ∧
      (∀ m, m < j + n →
        distSq (cs.getD (nearestLoop (cs.map finCentroid) p j n best) 0) p
          ≤ distSq (cs.getD m 0) p) ∧
      (∀ m, m < nearestLoop (cs.map finCentroid) p j n best →
        distSq (cs.getD (nearestLoop (cs.map finCentroid) p j n best) 0) p
          < distSq (cs.getD m 0) p) := by
  induction n with
  | zero =>
    intro j best hb _ h1 h2
    exact ⟨by simpa [nearestLoop] using hb, by simpa [nearestLoop] using h1,
      by simpa [nearestLoop] using h2⟩
  | succ n ih =>
    intro j best hb hlen h1 h2
    unfold nearestLoop
    rw [centroidAt_map_fin cs j (by omega), centroidAt_map_fin cs best (by omega),
      getDistance_finCentroid, getDistance_finCentroid]
    simp only [Root.lt, FVal.lt_fin, decide_eq_true_eq]
    have key := ih (j + 1)
      (if distSq (cs.getD j 0) p < distSq (cs.getD best 0) p then j else best)
    by_cases hlt : distSq (cs.getD j 0) p < distSq (cs.getD best 0) p
    · simp only [hlt, if_true] at key ⊢
      have := key (by omega) (by omega)
        (fun m hm => by
          rcases Nat.lt_succ_iff_lt_or_eq.mp hm with h | h
          · exact le_of_lt (lt_of_lt_of_le hlt (h1 m h))
          · subst h; exact le_refl _)
        (fun m hm => lt_of_lt_of_le hlt (h1 m hm))
      refine ⟨by omega, fun m hm => this.2.1 m (by omega), this.2.2⟩
    · simp only [hlt, if_false] at key ⊢
      have := key (by omega) (by omega)
        (fun m hm => by
          rcases Nat.lt_succ_iff_lt_or_eq.mp hm with h | h
          · exact h1 m h
          · subst h; exact not_lt.mp hlt)
        h2
      refine ⟨by omega, fun m hm => this.2.1 m (by omega), this.2.2⟩

/-- The index chosen for one tuple is the lowest index of a nearest centroid. -/
lemma nearestLoop_spec (cs : List (ℚ × ℚ)) (p : Point) (hk : 1 ≤ cs.length) :
    nearestLoop (cs.map finCentroid) p 1 (cs.length - 1) 0 < cs.length ∧
    (∀ m, m < cs.length →
      distSq (cs.getD (nearestLoop (cs.map finCentroid) p 1 (cs.length - 1) 0) 0) p
        ≤ distSq (cs.getD m 0) p) ∧
    (∀ m, m < nearestLoop (cs.map finCentroid) p 1 (cs.length - 1) 0 →
      distSq (cs.getD (nearestLoop (cs.map finCentroid) p 1 (cs.length - 1) 0) 0) p
        < distSq (cs.getD m 0) p) := by
  have h := nearestLoop_argmin cs p (cs.length - 1) 1 0 (by omega) (by omega)
    (fun m hm => by
      have : m = 0 := by omega
      subst this; exact le_refl _)
    (fun m hm => absurd hm (by omega))
  have e : 1 + (cs.length - 1) = cs.length := by omega
  rw [e] at h
  exact h

/-- On finite non-negative radicands the comparison of two roots by their
radicands is the comparison of the real square roots. -/
lemma Root.lt_fin_iff_sqrt_lt (a b : ℚ) (ha : 0 ≤ a) :
    Root.lt ⟨FVal.fin a⟩ ⟨FVal.fin b⟩ = true ↔ Real.sqrt (a : ℝ) < Real.sqrt (b : ℝ) := by
  have ha' : (0 : ℝ) ≤ (a : ℝ) := by exact_mod_cast ha
  simp only [Root.lt, FVal.lt_fin, decide_eq_true_eq, Real.sqrt_lt_sqrt_iff ha', Rat.cast_lt]

/-! ## The centroid update step -/

@[simp] lemma sumX_nil : sumX [] = 0 := rfl

@[simp] lemma sumY_nil : sumY [] = 0 := rfl

@[simp] lemma sumX_cons (p : Point) (ps : List Point) : sumX (p :: ps) = (p.1 : ℚ) + sumX ps := by
  simp [sumX]

@[simp] lemma sumY_cons (p : Point) (ps : List Point) : sumY (p :: ps) = (p.2 : ℚ) + sumY ps := by
  simp [sumY]

lemma addPoint_fin (a b : ℚ) (p : Point) :
    addPoint (FVal.fin a, FVal.fin b) p = (FVal.fin (a + p.1), FVal.fin (b + p.2)) := by
  simp [addPoint, FVal.ofInt]

lemma clusterPoints_cons (c m : Nat) (p : Point) (tuples : List (Nat × Point)) :
    clusterPoints c ((m, p) :: tuples)
      = if m = c then p :: clusterPoints c tuples else clusterPoints c tuples := by
  by_cases h : m = c <;> simp [clusterPoints, List.filter_cons, h]

/-- The inner loop of `getNewCentroids` adds to `sum` the coordinates of the
tuples assigned to cluster `i` and to `clusterSize` their number. -/
lemma clusterLoop_fin (i : Nat) (tuples : List (Nat × Point)) :
    ∀ (a b : ℚ) (n : Nat),
      clusterLoop i tuples ((FVal.fin a, FVal.fin b), n)
        = ((FVal.fin (a + sumX (clusterPoints i tuples)),
            FVal.fin (b + sumY (clusterPoints i tuples))),
           n + (clusterPoints i tuples).length) := by
  induction tuples with
  | nil => intro a b n; simp [clusterLoop, clusterPoints]
  | cons t rest ih =>
    intro a b n
    obtain ⟨m, p⟩ := t
    unfold clusterLoop
    rw [clusterPoints_cons]
    by_cases h : m = i
    · simp only [h, if_true, addPoint_fin, ih, sumX_cons, sumY_cons, List.length_cons]
      simp only [add_assoc, Nat.add_comm 1]
    · simp only [h, if_false, ih]

/-- The value stored in `new_centroid[i]` by one iteration of the outer loop of
`getNewCentroids` entered with `sum = 0` and `clusterSize = 0`. -/
lemma newCentroidStep_zero (tuples : List (Nat × Point)) (nc : List Centroid) (i : Nat) :
    newCentroidStep tuples { sum := zeroSum, clusterSize := 0, new_centroid := nc } i
      = { sum := zeroSum, clusterSize := 0,
          new_centroid := nc.set i
            (divSum (FVal.fin (sumX (clusterPoints i tuples)),
                     FVal.fin (sumY (clusterPoints i tuples)))
              ((clusterPoints i tuples).length : Int)) } := by
  simp [newCentroidStep, zeroSum, clusterLoop_fin]

/-- Invariant of the outer loop of `getNewCentroids`: at the head of every
iteration `sum` and `clusterSize` are zero, and the slots of the clusters
already treated hold the quotient of their coordinate sums by their size. -/
lemma newCentroids_fold (k : Nat) (tuples : List (Nat × Point)) (n : Nat) (hn : n ≤ k) :
    ∃ nc : List Centroid,
      (List.range n).foldl (newCentroidStep tuples)
        { sum := zeroSum, clusterSize := 0,
          new_centroid := List.replicate k (FVal.fin 0, FVal.fin 0) }
        = { sum := zeroSum, clusterSize := 0, new_centroid := nc } ∧
      nc.length = k ∧
      ∀ c, c < n → nc[c]? = some
        (divSum (FVal.fin (sumX (clusterPoints c tuples)),
                 FVal.fin (sumY (clusterPoints c tuples)))
          ((clusterPoints c tuples).length : Int)) := by
  induction n with
  | zero =>
    exact ⟨_, rfl, by simp, fun c hc => absurd hc (by omega)⟩
  | succ n ih =>
    obtain ⟨nc, h1, h2, h3⟩ := ih (by omega)
    refine ⟨nc.set n
      (divSum (FVal.fin (sumX (clusterPoints n tuples)),
               FVal.fin (sumY (clusterPoints n tuples)))
        ((clusterPoints n tuples).length : Int)), ?_, ?_, ?_⟩
    · rw [List.range_succ, List.foldl_append, h1]
      simp only [List.foldl_cons, List.foldl_nil]
      exact newCentroidStep_zero tuples nc n
    · simpa using h2
    · intro c hc
      rcases Nat.lt_succ_iff_lt_or_eq.mp hc with h | h
      · rw [List.getElem?_set_ne (by omega)]
        exact h3 c h
      · subst h
        rw [List.getElem?_set_self]
        simp [List.getElem?_eq_getElem, h2 ▸ (by omega : c < k)]

/-- Every slot of the result of `getNewCentroids` holds the quotient of the
coordinate sums of its cluster by the size of the cluster. -/
lemma getNewCentroids_getElem? (k : Nat) (nearestMeans : List Nat) (data : List Point)
    (c : Nat) (hc : c < k) :
    (getNewCentroids k nearestMeans data)[c]? = some
      (divSum (FVal.fin (sumX (clusterPoints c (nearestMeans.zip data))),
               FVal.fin (sumY (clusterPoints c (nearestMeans.zip data))))
        ((clusterPoints c (nearestMeans.zip data)).length : Int)) := by
  obtain ⟨nc, h1, _, h3⟩ := newCentroids_fold k (nearestMeans.zip data) k (le_refl k)
  simp only [getNewCentroids, h1]
  exact h3 c hc

lemma getNewCentroids_length (k : Nat) (nearestMeans : List Nat) (data : List Point) :
    (getNewCentroids k nearestMeans data).length = k := by
  obtain ⟨nc, h1, h2, _⟩ := newCentroids_fold k (nearestMeans.zip data) k (le_refl k)
  simp only [getNewCentroids, h1]
  exact h2

lemma clusterPoints_length_zip (c : Nat) :
    ∀ (nearestMeans : List Nat) (data : List Point), nearestMeans.length = data.length →
      (clusterPoints c (nearestMeans.zip data)).length = nearestMeans.count c := by
  intro nearestMeans
  induction nearestMeans with
  | nil => intro data _; simp [clusterPoints]
  | cons m ms ih =>
    intro data h
    cases data with
    | nil => simp at h
    | cons p ps =>
      simp only [List.length_cons, Nat.succ.injEq, add_left_inj] at h
      rw [List.zip_cons_cons, clusterPoints_cons, List.count_cons]
      by_cases hm : m = c
      · simp [hm, ih ps h]
      · simp [hm, ih ps h]

lemma divSum_fin (a b : ℚ) (n : Nat) (hn : 0 < n) :
    divSum (FVal.fin a, FVal.fin b) (n : Int) = finCentroid (a / (n : ℚ), b / (n : ℚ)) := by
  have : (n : Int) ≠ 0 := by omega
  simp [divSum, finCentroid, FVal.divInt_fin, this]

lemma sumX_append (l₁ l₂ : List Point) : sumX (l₁ ++ l₂) = sumX l₁ + sumX l₂ := by
  simp [sumX]

lemma sumY_append (l₁ l₂ : List Point) : sumY (l₁ ++ l₂) = sumY l₁ + sumY l₂ := by
  simp [sumY]

lemma foldl_addPoint_fin (ps : List Point) :
    ∀ a b : ℚ, ps.foldl addPoint (FVal.fin a, FVal.fin b)
      = (FVal.fin (a + sumX ps), FVal.fin (b + sumY ps)) := by
  induction ps with
  | nil => intro a b; simp
  | cons p ps ih =>
    intro a b
    simp only [List.foldl_cons, addPoint_fin, ih, sumX_cons, sumY_cons, add_assoc]

lemma succ_mod_eq_zero_iff (m cs r : Nat) (hr : r < cs) :
    (m * cs + r + 1) % cs = 0 ↔ r + 1 = cs := by
  rw [Nat.add_assoc, Nat.add_comm (m * cs), Nat.add_mul_mod_self_right]
  constructor
  · intro h
    by_contra hne
    have hlt : r + 1 < cs := by omega
    rw [Nat.mod_eq_of_lt hlt] at h
    omega
  · intro h
    rw [h, Nat.mod_self]

lemma block_eq_of_split (data pre blk rest : List Point) (cs m : Nat)
    (hd : data = pre ++ blk ++ rest) (hpre : pre.length = m * cs) (hblk : blk.length = cs) :
    block data cs m = blk := by
  subst hd
  unfold block
  rw [← hpre, List.append_assoc, List.drop_left, ← hblk, List.take_left]
/-- Invariant of the main loop of `getInitialCentroids`.  At the head of an
iteration, with `numComputed` centroids stored, `data` splits into the tuples
of the finished blocks (`pre`), the tuples already summed for the current block
(`blk`) and the tuples still to be read (`rest`).  The loop then leaves through
the `break` with all `k` slots written. -/
lemma initLoop_inv (k cs : Nat) (hcs : 0 < cs) (data : List Point)
    (hkN : k * cs ≤ data.length) :
    ∀ (rest pre blk : List Point) (st : InitState),
      data = pre ++ blk ++ rest →
      pre.length = st.numComputed * cs →
      blk.length < cs →
      st.numComputed + 1 ≤ k →
      (st.numComputed + 1 = k → blk = []) →
      st.sum = (FVal.fin (sumX blk), FVal.fin (sumY blk)) →
      st.new_centroid.length = k →
      (∀ b, b < st.numComputed →
        st.new_centroid[b]? = some (finCentroid (mean (block data cs b)))) →
      ∃ nc : List Centroid,
        initLoop k cs data.length (pre.length + blk.length) rest st
          = some { sum := zeroSum, numComputed := k, new_centroid := nc } ∧
        nc.length = k ∧
        (∀ b, b + 1 < k → nc[b]? = some (finCentroid (mean (block data cs b)))) ∧
        nc[k - 1]? = some (finCentroid (lastCentroid (lastBlock data cs k))) := by
  intro rest
  induction rest with
  | nil =>
    intro pre blk st hd hpre hblk hm _ _ _ _
    exfalso
    have hlen : data.length = pre.length + blk.length := by simp [hd]
    have h1 := Nat.mul_le_mul_right cs hm
    rw [Nat.add_mul, Nat.one_mul] at h1
    omega
  | cons p rest ih =>
    intro pre blk st hd hpre hblk hm hlast hsum hnc hprev
    unfold initLoop
    by_cases hfin : st.numComputed + 1 = k
    · -- the final block
      have hb := hlast hfin
      subst hb
      simp only [hfin, if_true, hsum, sumX_nil, sumY_nil, addPoint_fin, foldl_addPoint_fin,
        zero_add]
      have htail : lastBlock data cs k = p :: rest := by
        unfold lastBlock
        have : cs * (k - 1) = pre.length := by
          rw [hpre, ← hfin, Nat.add_sub_cancel, Nat.mul_comm]
        rw [this, hd, List.append_nil, List.drop_left]
      have hsize : ((data.length : Int) - (cs : Int) * ((k : Int) - 1))
          = (((p :: rest).length : Nat) : Int) := by
        have h1 : data.length = st.numComputed * cs + (p :: rest).length := by
          rw [hd]; simp [hpre]
        rw [h1, ← hfin]
        push_cast
        ring
      rw [hsize, divSum_fin _ _ _ (by simp)]
      refine ⟨_, rfl, by simpa using hnc, ?_, ?_⟩
      · intro b hb
        rw [List.getElem?_set_ne (by omega)]
        exact hprev b (by omega)
      · have e : k - 1 = st.numComputed := by omega
        rw [e, List.getElem?_set_self (by omega), htail]
        simp [lastCentroid]
    · have hcs0 : cs ≠ 0 := by omega
      simp only [hfin, if_false, hcs0, hsum, addPoint_fin]
      have hidx : (pre.length + blk.length + 1) % cs = 0 ↔ blk.length + 1 = cs := by
        rw [hpre]
        exact succ_mod_eq_zero_iff st.numComputed cs blk.length hblk
      by_cases hemit : blk.length + 1 = cs
      · -- a block of `clusterSize` tuples is complete
        simp only [hidx.mpr hemit, if_true]
        have hd' : data = (pre ++ (blk ++ [p])) ++ [] ++ rest := by
          rw [hd]; simp
        have hblock : block data cs st.numComputed = blk ++ [p] :=
          block_eq_of_split data pre (blk ++ [p]) rest cs st.numComputed
            (by rw [hd]; simp) hpre (by simpa using hemit)
        have key := ih (pre ++ (blk ++ [p])) []
          { sum := zeroSum, numComputed := st.numComputed + 1,
            new_centroid := st.new_centroid.set st.numComputed
              (divSum (FVal.fin (sumX blk + (p.1 : ℚ)), FVal.fin (sumY blk + (p.2 : ℚ)))
                (cs : Int)) }
          hd'
          (by simp only [List.length_append, List.length_singleton, hpre, Nat.add_mul,
                Nat.one_mul]; omega)
          (by simpa using hcs) (by show st.numComputed + 1 + 1 ≤ k; omega) (fun _ => rfl) rfl
          (by simpa using hnc)
          (by
            intro b hb
            have hb' : b < st.numComputed + 1 := hb
            show (st.new_centroid.set st.numComputed _)[b]? = _
            rcases Nat.lt_succ_iff_lt_or_eq.mp hb' with h | h
            · rw [List.getElem?_set_ne (by omega)]
              exact hprev b h
            · subst h
              rw [List.getElem?_set_self (by omega), hblock, divSum_fin _ _ _ hcs]
              simp [mean, sumX_append, sumY_append, hemit])
        have e : (pre ++ (blk ++ [p])).length + ([] : List Point).length
            = pre.length + blk.length + 1 := by
          simp only [List.length_append, List.length_singleton, List.length_nil]; omega
        rw [e] at key
        exact key
      · -- the current block goes on
        simp only [hidx.not.mpr hemit, if_false]
        have key := ih pre (blk ++ [p])
          { st with sum := (FVal.fin (sumX blk + (p.1 : ℚ)), FVal.fin (sumY blk + (p.2 : ℚ))) }
          (by rw [hd]; simp) hpre
          (by simp only [List.length_append, List.length_singleton]; omega)
          (by simpa using hm) (fun h => absurd h hfin)
          (by simp [sumX_append, sumY_append]) hnc hprev
        have e : pre.length + (blk ++ [p]).length = pre.length + blk.length + 1 := by
          simp only [List.length_append, List.length_singleton]; omega
        rw [e] at key
        exact key
/-- What `getInitialCentroids` computes on `1 ≤ k ≤ N`: the first `k-1` slots
hold the means of the first `k-1` blocks of `N/k` tuples; the last slot holds
the coordinate sums of the final block, with the first tuple of that block
added twice, divided by the size of the final block. -/
lemma getInitialCentroids_spec (k : Nat) (data : List Point) (hk : 1 ≤ k)
    (hN : k ≤ data.length) :
    ∃ nc : List Centroid,
      getInitialCentroids k data = some nc ∧ nc.length = k ∧
      (∀ b, b + 1 < k →
        nc[b]? = some (finCentroid (mean (block data (data.length / k) b)))) ∧
      nc[k - 1]? = some (finCentroid (lastCentroid (lastBlock data (data.length / k) k))) := by
  have hcs : 0 < data.length / k := Nat.div_pos hN (by omega)
  have hmul : k * (data.length / k) ≤ data.length := Nat.mul_div_le _ _
  obtain ⟨nc, h1, h2, h3, h4⟩ := initLoop_inv k (data.length / k) hcs data hmul data [] []
    { sum := zeroSum, numComputed := 0,
      new_centroid := List.replicate k (FVal.fin 0, FVal.fin 0) }
    (by simp) (by simp) (by simpa using hcs) (by simpa using hk) (fun _ => rfl) rfl (by simp)
    (fun b hb => absurd hb (by simp))
  refine ⟨nc, ?_, h2, h3, h4⟩
  have hk0 : k ≠ 0 := by omega
  simp only [List.length_nil, Nat.add_zero] at h1
  simp [getInitialCentroids, hk0, h1]

/-- Claim C3, evaluated on `k = 1` and the two points `(2,2)`, `(0,0)`: the
single (last) centroid returned by `getInitialCentroids` is `(2, 2)`, because
the first point of the final block is added to the sum twice, while the mean of
the points of the final block is `(1, 1)`. -/
theorem getInitialCentroids_last_double_count :
    getInitialCentroids 1 [(2, 2), (0, 0)] = some [(FVal.fin 2, FVal.fin 2)] ∧
    lastBlock [(2, 2), (0, 0)] (([(2, 2), (0, 0)] : List Point).length / 1) 1
      = [(2, 2), (0, 0)] ∧
    finCentroid (mean [(2, 2), (0, 0)]) = (FVal.fin 1, FVal.fin 1) := by
  decide!

/-- Claim C5, evaluated on `N = 5`, `k = 4` and the points `(0,0)`, `(1,1)`,
`(2,2)`, `(4,4)`, `(6,6)`: the first three centroids are the points 0, 1, 2, but
the fourth is `(7, 7)`, not the mean `(5, 5)` of points 3 and 4, so that the sum
of block size times centroid is `17`, not the coordinate sum `13` of the points. -/
theorem getInitialCentroids_coverage_fails :
    getInitialCentroids 4 [(0, 0), (1, 1), (2, 2), (4, 4), (6, 6)]
      = some [(FVal.fin 0, FVal.fin 0), (FVal.fin 1, FVal.fin 1), (FVal.fin 2, FVal.fin 2),
          (FVal.fin 7, FVal.fin 7)] ∧
    finCentroid (mean [(4, 4), (6, 6)]) = (FVal.fin 5, FVal.fin 5) ∧
    sumX [(0, 0), (1, 1), (2, 2), (4, 4), (6, 6)] = 13 ∧
    (1 * 0 + 1 * 1 + 1 * 2 + 2 * 7 : ℚ) = 17 := by
  decide!

/-! ## The mean minimises the sum of squared distances -/

@[simp] lemma sumDist_nil (x : ℚ × ℚ) : sumDist x [] = 0 := rfl

@[simp] lemma sumDist_cons (x : ℚ × ℚ) (p : Point) (ps : List Point) :
    sumDist x (p :: ps) = distSq x p + sumDist x ps := by
  simp [sumDist]

lemma sumDist_expand (x : ℚ × ℚ) (ps : List Point) :
    sumDist x ps = sumSq ps - 2 * x.1 * sumX ps - 2 * x.2 * sumY ps
      + (ps.length : ℚ) * (x.1 * x.1 + x.2 * x.2) := by
  induction ps with
  | nil => simp [sumSq]
  | cons p ps ih =>
    rw [sumDist_cons, ih]
    simp only [sumSq, sumX_cons, sumY_cons, List.map_cons, List.sum_cons, List.length_cons,
      distSq]
    push_cast
    ring

lemma sumDist_mean_le (x : ℚ × ℚ) (ps : List Point) :
    sumDist (mean ps) ps ≤ sumDist x ps := by
  cases ps with
  | nil => simp
  | cons p ps =>
    have hn : ((p :: ps).length : ℚ) ≠ 0 := by
      simp only [List.length_cons]; positivity
    have hx : (mean (p :: ps)).1 * ((p :: ps).length : ℚ) = sumX (p :: ps) := by
      simp only [mean]; field_simp
    have hy : (mean (p :: ps)).2 * ((p :: ps).length : ℚ) = sumY (p :: ps) := by
      simp only [mean]; field_simp
    have key : sumDist x (p :: ps) - sumDist (mean (p :: ps)) (p :: ps)
        = ((p :: ps).length : ℚ) *
          ((x.1 - (mean (p :: ps)).1) * (x.1 - (mean (p :: ps)).1)
            + (x.2 - (mean (p :: ps)).2) * (x.2 - (mean (p :: ps)).2)) := by
      rw [sumDist_expand x, sumDist_expand (mean (p :: ps)), ← hx, ← hy]
      ring
    have hpos : 0 ≤ ((p :: ps).length : ℚ) *
          ((x.1 - (mean (p :: ps)).1) * (x.1 - (mean (p :: ps)).1)
            + (x.2 - (mean (p :: ps)).2) * (x.2 - (mean (p :: ps)).2)) :=
      mul_nonneg (by positivity) (add_nonneg (mul_self_nonneg _) (mul_self_nonneg _))
    linarith

/-- The cost of an assignment, cluster by cluster. -/
lemma cost_eq_sum_clusters (k : Nat) (C : List (ℚ × ℚ)) (tuples : List (Nat × Point))
    (h : ∀ t ∈ tuples, t.1 < k) :
    cost C tuples
      = ∑ c in Finset.range k, sumDist (C.getD c 0) (clusterPoints c tuples) := by
  induction tuples with
  | nil => simp [cost, clusterPoints]
  | cons t rest ih =>
    obtain ⟨m, p⟩ := t
    have hm : m < k := h (m, p) (List.mem_cons_self _ _)
    have ih' := ih (fun t ht => h t (List.mem_cons_of_mem _ ht))
    have e : ∀ c, sumDist (C.getD c 0) (clusterPoints c ((m, p) :: rest))
        = (if m = c then distSq (C.getD c 0) p else 0)
          + sumDist (C.getD c 0) (clusterPoints c rest) := by
      intro c
      rw [clusterPoints_cons]
      by_cases hc : m = c <;> simp [hc]
    simp only [e, Finset.sum_add_distrib, Finset.sum_ite_eq, Finset.mem_range, hm, if_true]
    rw [← ih']
    simp [cost]

lemma means_getD (k : Nat) (tuples : List (Nat × Point)) (c : Nat) (hc : c < k) :
    (means k tuples).getD c 0 = mean (clusterPoints c tuples) := by
  simp [means, List.getD_eq_getElem, hc]

lemma means_length (k : Nat) (tuples : List (Nat × Point)) : (means k tuples).length = k := by
  simp [means]

/-- The update step does not increase the cost: the means of the clusters are
the best centres for a given assignment. -/
lemma cost_means_le (k : Nat) (C : List (ℚ × ℚ)) (tuples : List (Nat × Point))
    (h : ∀ t ∈ tuples, t.1 < k) :
    cost (means k tuples) tuples ≤ cost C tuples := by
  rw [cost_eq_sum_clusters k _ tuples h, cost_eq_sum_clusters k C tuples h]
  apply Finset.sum_le_sum
  intro c hc
  rw [means_getD k tuples c (Finset.mem_range.mp hc)]
  exact sumDist_mean_le _ _

/-! ## One iteration decreases the potential -/

lemma getNearestCentroids_cons (k : Nat) (centroid : List Centroid) (p : Point)
    (ps : List Point) :
    getNearestCentroids k centroid (p :: ps)
      = nearestLoop centroid p 1 (k - 1) 0 :: getNearestCentroids k centroid ps := rfl

lemma cost_cons (C : List (ℚ × ℚ)) (a : Nat) (p : Point) (tuples : List (Nat × Point)) :
    cost C ((a, p) :: tuples) = distSq (C.getD a 0) p + cost C tuples := by
  simp [cost]

/-- The assignment step does not increase the cost for the given centres, and
when the cost stays the same no label goes up. -/
lemma cost_assign_le (C : List (ℚ × ℚ)) (hC : 1 ≤ C.length) :
    ∀ (data : List Point) (A : List Nat), A.length = data.length →
      (∀ a ∈ A, a < C.length) →
      cost C ((getNearestCentroids C.length (C.map finCentroid) data).zip data)
          ≤ cost C (A.zip data) ∧
      (cost C ((getNearestCentroids C.length (C.map finCentroid) data).zip data)
          = cost C (A.zip data) →
        List.Forall₂ (fun x y => x ≤ y)
          (getNearestCentroids C.length (C.map finCentroid) data) A) := by
  intro data
  induction data with
  | nil =>
    intro A hA _
    have : A = [] := List.length_eq_zero.mp hA
    subst this
    exact ⟨le_refl _, fun _ => List.Forall₂.nil⟩
  | cons p ps ih =>
    intro A hA hlt
    cases A with
    | nil => simp at hA
    | cons a as =>
      simp only [List.length_cons, add_left_inj] at hA
      obtain ⟨ih1, ih2⟩ := ih as hA (fun x hx => hlt x (List.mem_cons_of_mem _ hx))
      obtain ⟨_, h2, h3⟩ := nearestLoop_spec C p hC
      have ha : a < C.length := hlt a (List.mem_cons_self _ _)
      have hle := h2 a ha
      rw [getNearestCentroids_cons, List.zip_cons_cons, List.zip_cons_cons, cost_cons, cost_cons]
      refine ⟨add_le_add hle ih1, fun heq => ?_⟩
      have e1 : distSq (C.getD (nearestLoop (C.map finCentroid) p 1 (C.length - 1) 0) 0) p
          = distSq (C.getD a 0) p := by linarith
      have e2 : cost C ((getNearestCentroids C.length (C.map finCentroid) ps).zip ps)
          = cost C (as.zip ps) := by linarith
      refine List.Forall₂.cons ?_ (ih2 e2)
      by_contra hgt
      have := h3 a (not_le.mp hgt)
      linarith

lemma forall₂_le_sum (l₁ l₂ : List Nat) (h : List.Forall₂ (fun x y => x ≤ y) l₁ l₂) :
    l₁.sum ≤ l₂.sum ∧ (l₁.sum = l₂.sum → l₁ = l₂) := by
  induction h with
  | nil => exact ⟨le_refl _, fun _ => rfl⟩
  | cons hab _ ih =>
    simp only [List.sum_cons]
    refine ⟨by omega, fun heq => ?_⟩
    have h1 := ih.1
    have := ih.2 (by omega)
    rw [this]
    congr 1
    rw [this] at heq
    omega

/-- With no empty cluster the centroids computed by `getNewCentroids` are the
means of the clusters. -/
lemma getNewCentroids_eq_means (k : Nat) (A : List Nat) (data : List Point)
    (hlen : A.length = data.length) (hne : ∀ c, c < k → c ∈ A) :
    getNewCentroids k A data = (means k (A.zip data)).map finCentroid := by
  apply List.ext_getElem?
  intro c
  by_cases hc : c < k
  · rw [getNewCentroids_getElem? k A data c hc, divSum_fin]
    · simp [means, List.getElem?_range, hc, mean]
    · rw [clusterPoints_length_zip c A data hlen]
      exact List.count_pos_iff.mpr (hne c hc)
  · rw [List.getElem?_eq_none (by rw [getNewCentroids_length]; omega),
      List.getElem?_eq_none (by simp [means]; omega)]

lemma mem_zip_fst_lt (k : Nat) (A : List Nat) (data : List Point) (h : ∀ a ∈ A, a < k) :
    ∀ t ∈ A.zip data, t.1 < k := by
  intro t ht
  obtain ⟨a, p⟩ := t
  exact h a (List.of_mem_zip ht).1

/-- One iteration of the loop of `kmeans`, from an assignment without empty
cluster, either reproduces the assignment or strictly decreases its potential. -/
lemma potential_decreases (k : Nat) (hk : 1 ≤ k) (data : List Point) (A : List Nat)
    (hlen : A.length = data.length) (hlt : ∀ a ∈ A, a < k) (hne : ∀ c, c < k → c ∈ A)
    (hchg : getNearestCentroids k (getNewCentroids k A data) data ≠ A) :
    potLt (potential k data (getNearestCentroids k (getNewCentroids k A data) data))
      (potential k data A) := by
  rw [getNewCentroids_eq_means k A data hlen hne] at hchg ⊢
  have hCk : (means k (A.zip data)).length = k := means_length _ _
  have hA' : ∀ a ∈ getNearestCentroids k ((means k (A.zip data)).map finCentroid) data, a < k :=
    getNearestCentroids_lt k hk _ data
  obtain ⟨h1, h2⟩ := cost_assign_le (means k (A.zip data)) (by omega) data A hlen
    (by rw [hCk]; exact hlt)
  rw [hCk] at h1 h2
  have h0 := cost_means_le k (means k (A.zip data))
    ((getNearestCentroids k ((means k (A.zip data)).map finCentroid) data).zip data)
    (mem_zip_fst_lt k _ data hA')
  unfold potLt potential
  simp only
  rcases lt_or_eq_of_le (le_trans h0 h1) with hlt' | heq
  · exact Or.inl hlt'
  · refine Or.inr ⟨heq, ?_⟩
    have hs := forall₂_le_sum _ _ (h2 (le_antisymm h1 (by rw [← heq]; exact h0)))
    rcases lt_or_eq_of_le hs.1 with h | h
    · exact h
    · exact absurd (hs.2 h) hchg

/-! ## Termination of the loop of `kmeans` -/

lemma potLt_trans {x y z : ℚ × Nat} (h1 : potLt x y) (h2 : potLt y z) : potLt x z := by
  unfold potLt at *
  rcases h1 with h1 | ⟨e1, h1⟩ <;> rcases h2 with h2 | ⟨e2, h2⟩
  · exact Or.inl (lt_trans h1 h2)
  · exact Or.inl (e2 ▸ h1)
  · exact Or.inl (e1 ▸ h2)
  · exact Or.inr ⟨e1.trans e2, lt_trans h1 h2⟩

lemma potLt_irrefl (x : ℚ × Nat) : ¬ potLt x x := by
  unfold potLt
  rintro (h | ⟨_, h⟩)
  · exact lt_irrefl _ h
  · exact lt_irrefl _ h

/-- There are at most `k ^ N` pairwise distinct vectors of length `N` with
entries below `k`. -/
lemma nodup_vectors_length_le (k N : Nat) (hk : 1 ≤ k) (L : List (List Nat)) (hnd : L.Nodup)
    (hL : ∀ A ∈ L, A.length = N ∧ ∀ a ∈ A, a < k) : L.length ≤ k ^ N := by
  let enc : List Nat → (Fin N → Fin k) :=
    fun A i => ⟨A.getD i 0 % k, Nat.mod_lt _ (by omega)⟩
  have hinj : ∀ A ∈ L, ∀ B ∈ L, enc A = enc B → A = B := by
    intro A hA B hB h
    obtain ⟨hAl, hAk⟩ := hL A hA
    obtain ⟨hBl, hBk⟩ := hL B hB
    apply List.ext_getElem (by rw [hAl, hBl])
    intro i h1 h2
    have hi : i < N := by omega
    have := congrArg (fun f => (f ⟨i, hi⟩).val) h
    simp only [enc, List.getD_eq_getElem _ _ h1, List.getD_eq_getElem _ _ h2] at this
    rwa [Nat.mod_eq_of_lt (hAk _ (List.getElem_mem h1)),
      Nat.mod_eq_of_lt (hBk _ (List.getElem_mem h2))] at this
  have hnd' : (L.map enc).Nodup := List.Nodup.map_on hinj hnd
  have := hnd'.length_le_card
  simpa using this

lemma compareNearestCentroids_ne_one (A B : List Nat) (n : Nat)
    (h : compareNearestCentroids (some A) (some B) n ≠ 1) : B ≠ A := by
  intro e
  subst e
  exact h (compareNearestCentroids_self B n)

/-- A run of the loop that uses up its fuel without flagging convergence, from
an assignment without empty cluster and its centroids, has produced a chain of
assignments of strictly decreasing potential. -/
lemma kmeansLoop_none_chain (k : Nat) (hk : 1 ≤ k) (data : List Point) :
    ∀ (fuel : Nat) (A : List Nat), A.length = data.length → (∀ a ∈ A, a < k) →
      (∀ c, c < k → c ∈ A) →
      kmeansLoop k data fuel (getNewCentroids k A data) A = none →
      (∀ B ∈ kmeansTrace k data fuel (getNewCentroids k A data) A, ∀ c, c < k → c ∈ B) →
      ∃ T : List (List Nat), T.length = fuel ∧
        List.Chain (fun X Y => potLt (potential k data Y) (potential k data X)) A T ∧
        ∀ B ∈ T, B.length = data.length ∧ ∀ b ∈ B, b < k := by
  intro fuel
  induction fuel with
  | zero =>
    intro A _ _ _ _ _
    exact ⟨[], rfl, List.Chain.nil, fun B hB => absurd hB (List.not_mem_nil _)⟩
  | succ fuel ih =>
    intro A hlen hlt hne hnone htrace
    unfold kmeansLoop at hnone
    unfold kmeansTrace at htrace
    simp only at hnone htrace
    by_cases hconv : compareNearestCentroids (some A)
        (some (getNearestCentroids k (getNewCentroids k A data) data)) data.length ≠ 1
    · rw [if_pos hconv] at hnone htrace
      simp only [Option.map_eq_none'] at hnone
      simp only [List.mem_cons, forall_eq_or_imp] at htrace
      have hlen' := getNearestCentroids_length k (getNewCentroids k A data) data
      have hlt' := getNearestCentroids_lt k hk (getNewCentroids k A data) data
      have hchg := compareNearestCentroids_ne_one A _ data.length hconv
      obtain ⟨T, hT1, hT2, hT3⟩ := ih _ hlen' hlt' htrace.1 hnone htrace.2
      refine ⟨getNearestCentroids k (getNewCentroids k A data) data :: T, by simp [hT1],
        List.Chain.cons (potential_decreases k hk data A hlen hlt hne hchg) hT2, ?_⟩
      intro B hB
      rcases List.mem_cons.mp hB with h | h
      · subst h; exact ⟨hlen', hlt'⟩
      · exact hT3 B h
    · rw [if_neg hconv] at hnone
      exact absurd hnone (by simp)

lemma chain_potLt_nodup (k : Nat) (data : List Point) (A : List Nat) (T : List (List Nat))
    (h : List.Chain (fun X Y => potLt (potential k data Y) (potential k data X)) A T) :
    (A :: T).Nodup := by
  haveI : IsTrans (List Nat) (fun X Y => potLt (potential k data Y) (potential k data X)) :=
    ⟨fun _ _ _ h1 h2 => potLt_trans h2 h1⟩
  have hp := List.chain_iff_pairwise.mp h
  refine List.Pairwise.imp ?_ hp
  intro X Y hXY e
  rw [e] at hXY
  exact potLt_irrefl _ hXY

lemma kmeansLoop_iters_le (k : Nat) (data : List Point) :
    ∀ (fuel : Nat) (centroid : List Centroid) (lastMeans : List Nat) (r : List Nat × Nat),
      kmeansLoop k data fuel centroid lastMeans = some r → r.2 ≤ fuel := by
  intro fuel
  induction fuel with
  | zero => intro _ _ _ h; simp [kmeansLoop] at h
  | succ fuel ih =>
    intro centroid lastMeans r h
    unfold kmeansLoop at h
    simp only at h
    split at h
    · simp only [Option.map_eq_some'] at h
      obtain ⟨r', hr', rfl⟩ := h
      have := ih _ _ r' hr'
      simp only
      omega
    · simp only [Option.some.injEq] at h
      subst h
      simp

/-- Claim C9. On a valid input (`1 ≤ k < N`, exact arithmetic) on which no
cluster is empty in any executed iteration, the loop of `kmeans` flags
convergence and returns after at most `k ^ N + 1` iterations. -/
theorem kmeans_terminates (k : Nat) (data : List Point) (hk : 1 ≤ k) (hN : k < data.length)
    (hne : ∀ fuel, ∀ A ∈ kmeansAssignments k data fuel, ∀ c, c < k → c ∈ A) :
    ∃ (r : List Nat) (iters : Nat),
      kmeans k data (k ^ data.length + 1) = some (r, iters) ∧
      iters ≤ k ^ data.length + 1 := by
  obtain ⟨c0, hc0, _, _, _⟩ := getInitialCentroids_spec k data hk (by omega)
  have hne' := hne (k ^ data.length + 1)
  simp only [kmeansAssignments, hc0] at hne'
  cases hrun : kmeans k data (k ^ data.length + 1) with
  | some r =>
    refine ⟨r.1, r.2, rfl, ?_⟩
    simp only [kmeans, hc0] at hrun
    exact kmeansLoop_iters_le k data _ _ _ r hrun
  | none =>
    exfalso
    simp only [kmeans, hc0] at hrun
    unfold kmeansLoop at hrun
    unfold kmeansTrace at hne'
    simp only at hrun hne'
    by_cases hconv : compareNearestCentroids (some (List.replicate data.length 0))
        (some (getNearestCentroids k c0 data)) data.length ≠ 1
    · rw [if_pos hconv] at hrun hne'
      simp only [Option.map_eq_none'] at hrun
      simp only [List.mem_cons, forall_eq_or_imp] at hne'
      have hlen' := getNearestCentroids_length k c0 data
      have hlt' := getNearestCentroids_lt k hk c0 data
      obtain ⟨T, hT1, hT2, hT3⟩ := kmeansLoop_none_chain k hk data _ _ hlen' hlt' hne'.1 hrun
        hne'.2
      have hnd := chain_potLt_nodup k data _ T hT2
      have hcard := nodup_vectors_length_le k data.length hk _ hnd (by
        intro B hB
        rcases List.mem_cons.mp hB with h | h
        · subst h; exact ⟨hlen', hlt'⟩
        · exact hT3 B h)
      simp only [List.length_cons, hT1] at hcard
      omega
    · rw [if_neg hconv] at hrun
      exact absurd hrun (by simp)

/-- The assignments computed within any fuel are among those of a run that
returns. -/
lemma kmeansTrace_mem_of_returns (k : Nat) (data : List Point) :
    ∀ (fuel0 : Nat) (centroid : List Centroid) (lastMeans : List Nat) (r : List Nat × Nat),
      kmeansLoop k data fuel0 centroid lastMeans = some r →
      ∀ fuel, ∀ A ∈ kmeansTrace k data fuel centroid lastMeans,
        A ∈ kmeansTrace k data fuel0 centroid lastMeans := by
  intro fuel0
  induction fuel0 with
  | zero => intro _ _ _ h; simp [kmeansLoop] at h
  | succ fuel0 ih =>
    intro centroid lastMeans r h fuel A hA
    cases fuel with
    | zero => simp [kmeansTrace] at hA
    | succ fuel =>
      unfold kmeansLoop at h
      unfold kmeansTrace at hA ⊢
      simp only at h hA ⊢
      by_cases hconv : compareNearestCentroids (some lastMeans)
          (some (getNearestCentroids k centroid data)) data.length ≠ 1
      · rw [if_pos hconv] at h hA ⊢
        simp only [Option.map_eq_some'] at h
        obtain ⟨r', hr', _⟩ := h
        rcases List.mem_cons.mp hA with hA | hA
        · exact List.mem_cons.mpr (Or.inl hA)
        · exact List.mem_cons.mpr (Or.inr (ih _ _ r' hr' fuel A hA))
      · rw [if_neg hconv] at hA ⊢
        exact hA

lemma kmeansAssignments_mem_of_returns (k : Nat) (data : List Point) (fuel0 : Nat)
    (r : List Nat × Nat) (h : kmeans k data fuel0 = some r) :
    ∀ fuel, ∀ A ∈ kmeansAssignments k data fuel, A ∈ kmeansAssignments k data fuel0 := by
  intro fuel A hA
  unfold kmeans at h
  unfold kmeansAssignments at hA ⊢
  split at h
  · exact absurd h (by simp)
  · rename_i c0 hc0
    simp only [hc0] at hA ⊢
    exact kmeansTrace_mem_of_returns k data fuel0 _ _ r h fuel A hA

theorem kmeans_terminates_witness :
    ∃ (r : List Nat) (iters : Nat),
      kmeans 2 [(0, 0), (1, 0), (0, 1), (10, 10), (11, 10), (10, 11)]
          (2 ^ ([(0, 0), (1, 0), (0, 1), (10, 10), (11, 10), (10, 11)] : List Point).length + 1)
        = some (r, iters) ∧
      iters ≤ 2 ^ ([(0, 0), (1, 0), (0, 1), (10, 10), (11, 10), (10, 11)] : List Point).length + 1 :=
  kmeans_terminates 2 [(0, 0), (1, 0), (0, 1), (10, 10), (11, 10), (10, 11)] (by decide)
    (by decide)
    (fun fuel A hA c hc => by
      have h := kmeansAssignments_mem_of_returns 2
        [(0, 0), (1, 0), (0, 1), (10, 10), (11, 10), (10, 11)] 2 ([0, 0, 0, 1, 1, 1], 2)
        (by decide!) fuel A hA
      have e : kmeansAssignments 2 [(0, 0), (1, 0), (0, 1), (10, 10), (11, 10), (10, 11)] 2
          = [[0, 0, 0, 1, 1, 1], [0, 0, 0, 1, 1, 1]] := by decide!
      rw [e] at h
      have hA' : A = [0, 0, 0, 1, 1, 1] := by simpa using h
      subst hA'
      interval_cases c <;> decide)

/-- The trace lists exactly the iterations of a run that returns: it has as many
entries as the run has iterations and ends with the returned vector. -/
lemma kmeansTrace_of_returns (k : Nat) (data : List Point) :
    ∀ (fuel : Nat) (centroid : List Centroid) (lastMeans : List Nat) (r : List Nat × Nat),
      kmeansLoop k data fuel centroid lastMeans = some r →
      (kmeansTrace k data fuel centroid lastMeans).length = r.2 ∧
      (kmeansTrace k data fuel centroid lastMeans).getLast? = some r.1 := by
  intro fuel
  induction fuel with
  | zero => intro _ _ _ h; simp [kmeansLoop] at h
  | succ fuel ih =>
    intro centroid lastMeans r h
    unfold kmeansLoop at h
    unfold kmeansTrace
    simp only at h ⊢
    by_cases hconv : compareNearestCentroids (some lastMeans)
        (some (getNearestCentroids k centroid data)) data.length ≠ 1
    · rw [if_pos hconv] at h ⊢
      simp only [Option.map_eq_some'] at h
      obtain ⟨r', hr', rfl⟩ := h
      obtain ⟨h1, h2⟩ := ih _ _ r' hr'
      refine ⟨by simp [h1], ?_⟩
      rw [List.getLast?_cons, h2]
      rfl
    · rw [if_neg hconv] at h ⊢
      simp only [Option.some.injEq] at h
      subst h
      simp

/-! ## The returned vector and the previous iteration -/

lemma eq_of_compareNearestCentroids_eq_one (A B : List Nat) (n : Nat) (hA : A.length = n)
    (hB : B.length = n) (h : compareNearestCentroids (some A) (some B) n = 1) : B = A := by
  simp only [compareNearestCentroids, compareLoop_eq_one_iff, zero_le, zero_add,
    true_implies] at h
  apply List.ext_getElem (by rw [hA, hB])
  intro i h1 h2
  have := h i (by omega)
  rw [List.getD_eq_getElem _ _ h2, List.getD_eq_getElem _ _ h1] at this
  exact this.symm

lemma kmeansLoop_iters_pos (k : Nat) (data : List Point) :
    ∀ (fuel : Nat) (centroid : List Centroid) (lastMeans : List Nat) (r : List Nat × Nat),
      kmeansLoop k data fuel centroid lastMeans = some r → 1 ≤ r.2 := by
  intro fuel
  cases fuel with
  | zero => intro _ _ _ h; simp [kmeansLoop] at h
  | succ fuel =>
    intro centroid lastMeans r h
    unfold kmeansLoop at h
    simp only at h
    split at h
    · simp only [Option.map_eq_some'] at h
      obtain ⟨r', _, rfl⟩ := h
      simp
    · simp only [Option.some.injEq] at h
      subst h
      simp

/-- A run of the loop that returns either stops in its first iteration, with a
vector equal to the previous one, or returns a vector that the update step and
the assignment step reproduce. -/
lemma kmeansLoop_returns_cases (k : Nat) (data : List Point) :
    ∀ (fuel : Nat) (centroid : List Centroid) (lastMeans : List Nat) (r : List Nat × Nat),
      lastMeans.length = data.length →
      kmeansLoop k data fuel centroid lastMeans = some r →
      (r.2 = 1 ∧ r.1 = getNearestCentroids k centroid data ∧ r.1 = lastMeans) ∨
      (2 ≤ r.2 ∧ getNearestCentroids k (getNewCentroids k r.1 data) data = r.1) := by
  intro fuel
  induction fuel with
  | zero => intro _ _ _ _ h; simp [kmeansLoop] at h
  | succ fuel ih =>
    intro centroid lastMeans r hlen h
    unfold kmeansLoop at h
    simp only at h
    by_cases hconv : compareNearestCentroids (some lastMeans)
        (some (getNearestCentroids k centroid data)) data.length ≠ 1
    · rw [if_pos hconv] at h
      simp only [Option.map_eq_some'] at h
      obtain ⟨r', hr', rfl⟩ := h
      have hpos := kmeansLoop_iters_pos k data fuel _ _ r' hr'
      right
      refine ⟨by simp only; omega, ?_⟩
      rcases ih _ _ r' (getNearestCentroids_length k centroid data) hr' with h1 | h1
      · obtain ⟨_, e1, e2⟩ := h1
        have e3 : getNearestCentroids k (getNewCentroids k r'.1 data) data
            = getNearestCentroids k
                (getNewCentroids k (getNearestCentroids k centroid data) data) data := by
          rw [← e2]
        exact e3.trans e1.symm
      · exact h1.2
    · rw [if_neg hconv] at h
      simp only [Option.some.injEq] at h
      subst h
      left
      refine ⟨rfl, rfl, ?_⟩
      exact eq_of_compareNearestCentroids_eq_one lastMeans _ data.length hlen
        (getNearestCentroids_length k centroid data) (not_not.mp hconv)

/-- Claim C17. On a valid input (`1 ≤ k < N`), a vector returned by `kmeans` in
which every cluster index below `k` occurs is reproduced by the update step
followed by the assignment step. -/
theorem kmeans_fixed_point (k : Nat) (data : List Point) (hk : 1 ≤ k) (hN : k < data.length)
    (fuel : Nat) (A : List Nat) (iters : Nat) (h : kmeans k data fuel = some (A, iters))
    (hne : ∀ c, c < k → c ∈ A) :
    getNearestCentroids k (getNewCentroids k A data) data = A := by
  unfold kmeans at h
  split at h
  · exact absurd h (by simp)
  · rcases kmeansLoop_returns_cases k data fuel _ _ (A, iters) (by simp) h with h1 | h1
    · have hA : A = List.replicate data.length 0 := h1.2.2
      have hk1 : k = 1 := by
        by_contra hk2
        have h1mem := hne 1 (by omega)
        rw [hA] at h1mem
        have := List.eq_of_mem_replicate h1mem
        omega
      subst hk1
      rw [getNearestCentroids_one, hA]
    · exact h1.2

theorem kmeans_fixed_point_witness :
    getNearestCentroids 2
        (getNewCentroids 2 [0, 0, 0, 1, 1, 1]
          [(0, 0), (1, 0), (0, 1), (10, 10), (11, 10), (10, 11)])
        [(0, 0), (1, 0), (0, 1), (10, 10), (11, 10), (10, 11)]
      = [0, 0, 0, 1, 1, 1] :=
  kmeans_fixed_point 2 [(0, 0), (1, 0), (0, 1), (10, 10), (11, 10), (10, 11)] (by decide)
    (by decide) 2 [0, 0, 0, 1, 1, 1] 2 (by decide!)
    (fun c hc => by interval_cases c <;> decide)

/-! ## Convergence in the first iteration -/

/-- In a run of the loop that returns after `n` iterations, the returned vector
is the assignment of iteration `n` and equals the one of iteration `n - 1`
(the vector `lastMeans` at entry when `n = 1`). -/
lemma kmeansLoop_returns_previous (k : Nat) (data : List Point) :
    ∀ (fuel : Nat) (centroid : List Centroid) (lastMeans : List Nat) (r : List Nat × Nat),
      lastMeans.length = data.length →
      kmeansLoop k data fuel centroid lastMeans = some r →
      (lastMeans :: kmeansTrace k data fuel centroid lastMeans)[r.2 - 1]? = some r.1 ∧
      (lastMeans :: kmeansTrace k data fuel centroid lastMeans)[r.2]? = some r.1 := by
  intro fuel
  induction fuel with
  | zero => intro _ _ _ _ h; simp [kmeansLoop] at h
  | succ fuel ih =>
    intro centroid lastMeans r hlen h
    unfold kmeansLoop at h
    unfold kmeansTrace
    simp only at h ⊢
    by_cases hconv : compareNearestCentroids (some lastMeans)
        (some (getNearestCentroids k centroid data)) data.length ≠ 1
    · rw [if_pos hconv] at h ⊢
      simp only [Option.map_eq_some'] at h
      obtain ⟨r', hr', rfl⟩ := h
      have hpos := kmeansLoop_iters_pos k data fuel _ _ r' hr'
      obtain ⟨h1, h2⟩ := ih _ _ r' (getNearestCentroids_length k centroid data) hr'
      simp only [Nat.add_sub_cancel, List.getElem?_cons_succ]
      refine ⟨?_, h2⟩
      obtain ⟨m, hm⟩ : ∃ m, r'.2 = m + 1 := ⟨r'.2 - 1, by omega⟩
      rw [hm] at h1 ⊢
      simpa using h1
    · rw [if_neg hconv] at h ⊢
      simp only [Option.some.injEq] at h
      subst h
      have := eq_of_compareNearestCentroids_eq_one lastMeans _ data.length hlen
        (getNearestCentroids_length k centroid data) (not_not.mp hconv)
      simp [this]

lemma kmeansLoop_first_converged (k : Nat) (data : List Point) (centroid : List Centroid)
    (lastMeans : List Nat) (fuel : Nat)
    (h : getNearestCentroids k centroid data = lastMeans) :
    kmeansLoop k data (fuel + 1) centroid lastMeans = some (lastMeans, 1) := by
  unfold kmeansLoop
  simp only [h, compareNearestCentroids_self, ne_eq, not_true_eq_false, if_false]

lemma kmeansLoop_first_not_converged (k : Nat) (data : List Point) (centroid : List Centroid)
    (lastMeans : List Nat) (hlen : lastMeans.length = data.length)
    (h : getNearestCentroids k centroid data ≠ lastMeans) :
    kmeansLoop k data 1 centroid lastMeans = none ∧
    ∀ fuel r, kmeansLoop k data fuel centroid lastMeans = some r → 2 ≤ r.2 := by
  have hconv : compareNearestCentroids (some lastMeans)
      (some (getNearestCentroids k centroid data)) data.length ≠ 1 := fun e =>
    h (eq_of_compareNearestCentroids_eq_one lastMeans _ data.length hlen
      (getNearestCentroids_length k centroid data) e)
  refine ⟨?_, ?_⟩
  · unfold kmeansLoop
    simp only
    rw [if_pos hconv]
    simp [kmeansLoop]
  · intro fuel r hr
    rcases kmeansLoop_returns_cases k data fuel centroid lastMeans r hlen hr with h1 | h1
    · exact absurd (h1.2.1.symm.trans h1.2.2) h
    · exact h1.1

/-- Claim C19. On a valid input (`1 ≤ k < N`) `kmeans` starts from a
zero-filled previous vector.  It returns after exactly one loop iteration if
and only if the assignment computed from the initial centroids maps every point
to centroid 0.  Otherwise the first iteration does not end the loop, and every
run that returns has at least two iterations and returns a vector equal to the
assignment of the preceding iteration. -/
theorem kmeans_first_iteration (k : Nat) (data : List Point) (hk : 1 ≤ k)
    (hN : k < data.length) :
    ∃ c0 : List Centroid, getInitialCentroids k data = some c0 ∧
      ((∃ fuel r, kmeans k data fuel = some (r, 1)) ↔
        getNearestCentroids k c0 data = List.replicate data.length 0) ∧
      (getNearestCentroids k c0 data = List.replicate data.length 0 →
        ∀ fuel, kmeans k data (fuel + 1) = some (List.replicate data.length 0, 1)) ∧
      (getNearestCentroids k c0 data ≠ List.replicate data.length 0 →
        kmeans k data 1 = none ∧
        ∀ fuel r n, kmeans k data fuel = some (r, n) →
          2 ≤ n ∧ (kmeansAssignments k data fuel).length = n ∧
          (kmeansAssignments k data fuel)[n - 1]? = some r ∧
          (kmeansAssignments k data fuel)[n - 2]? = some r) := by
  obtain ⟨c0, hc0, _, _, _⟩ := getInitialCentroids_spec k data hk (by omega)
  have hz : (List.replicate data.length 0).length = data.length := by simp
  refine ⟨c0, hc0, ?_, ?_, ?_⟩
  · constructor
    · rintro ⟨fuel, r, h⟩
      simp only [kmeans, hc0] at h
      rcases kmeansLoop_returns_cases k data fuel c0 _ (r, 1) hz h with h1 | h1
      · exact h1.2.1.symm.trans h1.2.2
      · exact absurd h1.1 (by simp)
    · intro h
      refine ⟨1, List.replicate data.length 0, ?_⟩
      simp only [kmeans, hc0]
      exact kmeansLoop_first_converged k data c0 _ 0 h
  · intro h fuel
    simp only [kmeans, hc0]
    exact kmeansLoop_first_converged k data c0 _ fuel h
  · intro h
    obtain ⟨h1, h2⟩ := kmeansLoop_first_not_converged k data c0 _ hz h
    refine ⟨by simp only [kmeans, hc0]; exact h1, ?_⟩
    intro fuel r n hr
    simp only [kmeans, hc0] at hr
    simp only [kmeansAssignments, hc0]
    have hn := h2 fuel (r, n) hr
    have hprev := kmeansLoop_returns_previous k data fuel c0 _ (r, n) hz hr
    have hlen := (kmeansTrace_of_returns k data fuel c0 _ (r, n) hr).1
    simp only at hn hprev hlen
    obtain ⟨m, rfl⟩ : ∃ m, n = m + 2 := ⟨n - 2, by omega⟩
    refine ⟨hn, hlen, ?_, ?_⟩
    · simpa using hprev.2
    · simpa using hprev.1

theorem kmeans_first_iteration_witness :
    ∃ c0 : List Centroid,
      getInitialCentroids 2 [(0, 0), (1, 0), (0, 1), (10, 10), (11, 10), (10, 11)] = some c0 :=
  (kmeans_first_iteration 2 [(0, 0), (1, 0), (0, 1), (10, 10), (11, 10), (10, 11)] (by decide)
    (by decide)).imp (fun _ h => h.1)

/-! ## Argument validation in `main` -/

/-- Claim C11. In a run with a readable input file of `N` points and `k ≥ N`,
`main` returns 1 and does not call `kmeans`; whenever `kmeans` is called, it is
on the parsed `k` and the tuples of the input file with `N > k`. -/
theorem main_k_versus_N (argc k : Int) (file : Option (List Point)) (canOpen : Bool)
    (fuel : Nat) (hargc : 2 ≤ argc) :
    (∀ data, file = some data → (data.length : Int) ≤ k →
      (main argc k file canOpen fuel).exitCode = some 1 ∧
      (main argc k file canOpen fuel).kmeansArgs = none) ∧
    (∀ k' data, (main argc k file canOpen fuel).kmeansArgs = some (k', data) →
      k' = k ∧ file = some data ∧ k < (data.length : Int)) := by
  have h2 : ¬ argc < 2 := by omega
  refine ⟨?_, ?_⟩
  · intro data hfile hk
    subst hfile
    unfold main checkArgs
    simp only [h2, if_false]
    by_cases h3 : argc ≠ 3
    · simp [h3]
    · by_cases hneg : k < 0
      · simp [h3, hneg]
      · simp [h3, hneg, hk]
  · intro k' data h
    unfold main checkArgs at h
    simp only [h2, if_false] at h
    by_cases h3 : argc ≠ 3
    · simp [h3] at h
    · by_cases hneg : k < 0
      · simp [h3, hneg] at h
      · cases file with
        | none => simp [h3, hneg] at h
        | some d =>
          simp only [h3, hneg, if_false] at h
          by_cases hle : (d.length : Int) ≤ k
          · simp [hle] at h
          · simp only [hle, if_false] at h
            split at h
            · simp only [Option.some.injEq, Prod.mk.injEq] at h
              exact ⟨h.1.symm, by rw [h.2], by rw [← h.2]; omega⟩
            · simp only [Option.some.injEq, Prod.mk.injEq] at h
              exact ⟨h.1.symm, by rw [h.2], by rw [← h.2]; omega⟩

theorem main_k_versus_N_witness :
    (main 3 2 (some [(0, 0), (1, 0)]) true 5).exitCode = some 1 ∧
    (main 3 2 (some [(0, 0), (1, 0)]) true 5).kmeansArgs = none :=
  (main_k_versus_N 3 2 (some [(0, 0), (1, 0)]) true 5 (by decide)).1 [(0, 0), (1, 0)] rfl
    (by decide)

/-- A negative `k` is rejected by `checkArgs`: the run exits with code 1 before
`kmeans` is called. -/
lemma main_negative_k (argc k : Int) (file : Option (List Point)) (canOpen : Bool)
    (fuel : Nat) (hargc : 2 ≤ argc) (hk : k < 0) :
    (main argc k file canOpen fuel).exitCode = some 1 ∧
    (main argc k file canOpen fuel).kmeansArgs = none := by
  have h2 : ¬ argc < 2 := by omega
  unfold main checkArgs
  simp only [h2, if_false]
  by_cases h3 : argc ≠ 3
  · simp [h3]
  · simp [h3, hk]

lemma kmeans_zero (data : List Point) (fuel : Nat) : kmeans 0 data fuel = none := by
  simp [kmeans, getInitialCentroids]

/-- Claim C12, evaluated on `k = 0` with an input file of one point: the test
`k < 0` of `checkArgs` lets `k = 0` through, `main` calls `kmeans` with `k = 0`,
and the run ends in the division `numTuples/k` by zero instead of exiting with
code 1. -/
theorem main_zero_k_reaches_kmeans (canOpen : Bool) (fuel : Nat) :
    checkArgs 3 0 (some [(0, 0)]) = Except.ok [(0, 0)] ∧
    main 3 0 (some [(0, 0)]) canOpen fuel
      = { exitCode := none, kmeansArgs := some (0, [(0, 0)]), output := none } ∧
    getInitialCentroids 0 [(0, 0)] = none := by
  have hc : checkArgs 3 0 (some [(0, 0)]) = Except.ok [(0, 0)] := rfl
  refine ⟨hc, ?_, by decide⟩
  have h : kmeans (0 : Int).toNat [(0, 0)] fuel = none := kmeans_zero _ _
  unfold main
  rw [if_neg (by decide), hc]
  simp only [h]
  rfl

/-! ## `writeOutput` -/

lemma filterMap_slot_read (l : List Nat) :
    (l.map InitEvent.read).filterMap InitEvent.slot? = [] := by
  induction l with
  | nil => rfl
  | cons a l ih => simp [List.filterMap_cons, InitEvent.slot?]

/-- The list of events follows the loop of `getInitialCentroids`: the loop has
undefined behaviour exactly when a remainder by zero is among the events, and
otherwise `numComputed` grows by the number of writes. -/
lemma initLoop_events (k cs N : Nat) :
    ∀ (rest : List Point) (i : Nat) (st : InitState),
      (initLoop k cs N i rest st = none ↔
        InitEvent.remainder 0 ∈ initEvents k cs N rest.length i st.numComputed) ∧
      (∀ st', initLoop k cs N i rest st = some st' →
        st'.numComputed = st.numComputed
          + ((initEvents k cs N rest.length i st.numComputed).filterMap InitEvent.slot?).length)
    := by
  intro rest
  induction rest with
  | nil =>
    intro i st
    simp [initLoop, initEvents]
  | cons p rest ih =>
    intro i st
    unfold initLoop
    simp only [List.length_cons, initEvents]
    by_cases hfin : st.numComputed + 1 = k
    · simp only [hfin, if_true]
      refine ⟨by simp, ?_⟩
      intro st' h
      simp only [Option.some.injEq] at h
      subst h
      simp only [List.filterMap_cons, InitEvent.slot?, List.filterMap_append,
        filterMap_slot_read, List.filterMap_nil, List.nil_append, List.length_cons,
        List.length_nil]
      omega
    · simp only [hfin, if_false]
      by_cases hcs : cs = 0
      · simp [hcs]
      · simp only [hcs, if_false]
        have hcs' : InitEvent.remainder 0 ≠ InitEvent.remainder cs := by
          intro e
          injection e with e
          exact hcs e.symm
        by_cases hemit : (i + 1) % cs = 0
        · simp only [hemit, if_true]
          obtain ⟨h1, h2⟩ := ih (i + 1)
            { sum := zeroSum, numComputed := st.numComputed + 1,
              new_centroid := st.new_centroid.set st.numComputed
                (divSum (addPoint st.sum p) (cs : Int)) }
          refine ⟨?_, ?_⟩
          · rw [h1]
            simp [hcs']
          · intro st' h
            rw [h2 st' h]
            simp only [List.filterMap_cons, InitEvent.slot?, List.length_cons]
            omega
        · simp only [hemit, if_false]
          obtain ⟨h1, h2⟩ := ih (i + 1) { st with sum := addPoint st.sum p }
          refine ⟨?_, ?_⟩
          · rw [h1]
            simp [hcs']
          · intro st' h
            rw [h2 st' h]
            simp only [List.filterMap_cons, InitEvent.slot?]
/-- Claim C15, evaluated on `k = 3` and two points: `getInitialCentroids` does
not return an error; after `numTuples/k = 0` and the read of `data[0]` it takes
the remainder `(0+1) % clusterSize` with `clusterSize = 0`. -/
theorem getInitialCentroids_zero_block_counterexample :
    getInitialCentroidsEvents 3 [(0, 0), (0, 0)]
      = [InitEvent.intDiv 3, InitEvent.read 0, InitEvent.remainder 0] ∧
    getInitialCentroids 3 [(0, 0), (0, 0)] = none := by
  decide!

/-- Claim C15 as amended. For `k > N ≥ 1` the block size `N / k` is zero and
`getInitialCentroids` has no guard against it: after the read of `data[0]` it
takes the remainder `(0+1) % clusterSize` by zero, which is undefined behaviour,
and stores no centroid. -/
theorem getInitialCentroids_zero_block (k : Nat) (data : List Point) (hN : 1 ≤ data.length)
    (hk : data.length < k) :
    data.length / k = 0 ∧
    getInitialCentroidsEvents k data
      = [InitEvent.intDiv k, InitEvent.read 0, InitEvent.remainder 0] ∧
    getInitialCentroids k data = none := by
  have hdiv : data.length / k = 0 := Nat.div_eq_of_lt hk
  have hk0 : k ≠ 0 := by omega
  have hk1 : ¬ (0 + 1 = k) := by omega
  cases data with
  | nil => simp at hN
  | cons p rest =>
    have hdiv' : (rest.length + 1) / k = 0 := by simpa using hdiv
    refine ⟨hdiv, ?_, ?_⟩
    · simp only [getInitialCentroidsEvents, hk0, if_false, List.length_cons, hdiv', initEvents,
        hk1, if_true]
    · simp only [getInitialCentroids, hk0, if_false, List.length_cons, hdiv', initLoop, hk1,
        if_true]
      rfl

theorem getInitialCentroids_zero_block_witness :
    ([(0, 0), (0, 0)] : List Point).length / 3 = 0 ∧
    getInitialCentroidsEvents 3 [(0, 0), (0, 0)]
      = [InitEvent.intDiv 3, InitEvent.read 0, InitEvent.remainder 0] ∧
    getInitialCentroids 3 [(0, 0), (0, 0)] = none :=
  getInitialCentroids_zero_block 3 [(0, 0), (0, 0)] (by decide) (by decide)

/-- Invariant of the loop of `getInitialCentroids` on its events, for a positive
block size `cs` with `k * cs ≤ N`: at index `i = m * cs + r` with `m` centroids
stored, every later read is below `N`, every later divisor is positive and the
later writes go to the slots `m, m+1, .., k-1` in turn. -/
lemma initEvents_inv (k cs N : Nat) (hcs : 0 < cs) (hkN : k * cs ≤ N) :
    ∀ (n i m : Nat), m * cs ≤ i → i < m * cs + cs → m + 1 ≤ k →
      (m + 1 = k → i = m * cs) → i + n = N →
      (∀ j, InitEvent.read j ∈ initEvents k cs N n i m → j < N) ∧
      (∀ d, InitEvent.remainder d ∈ initEvents k cs N n i m → 0 < d) ∧
      (∀ d, InitEvent.divide d ∈ initEvents k cs N n i m → 0 < d) ∧
      (∀ d, InitEvent.intDiv d ∉ initEvents k cs N n i m) ∧
      (initEvents k cs N n i m).filterMap InitEvent.slot? = List.range' m (k - m) := by
  intro n
  induction n with
  | zero =>
    intro i m h1 h2 hm _ hn
    exfalso
    have h3 := Nat.mul_le_mul_right cs hm
    rw [Nat.add_mul, Nat.one_mul] at h3
    omega
  | succ n ih =>
    intro i m h1 h2 hm hlast hn
    unfold initEvents
    by_cases hfin : m + 1 = k
    · simp only [hfin, if_true]
      have hi := hlast hfin
      have hlastpos : (0 : Int) < (N : Int) - (cs : Int) * ((k : Int) - 1) := by
        have h3 : ((k * cs : Nat) : Int) ≤ (N : Int) := by exact_mod_cast hkN
        push_cast at h3
        have h4 : (0 : Int) < (cs : Int) := by exact_mod_cast hcs
        have e : (N : Int) - (cs : Int) * ((k : Int) - 1)
            = ((N : Int) - (k : Int) * (cs : Int)) + (cs : Int) := by ring
        rw [e]
        omega
      have hkm : k - m = 1 := by omega
      refine ⟨?_, ?_, ?_, ?_, ?_⟩
      · intro j hj
        simp only [List.mem_cons, InitEvent.read.injEq, List.mem_append, List.mem_map,
          List.mem_range', List.mem_singleton, reduceCtorEq, or_false, List.not_mem_nil] at hj
        rcases hj with h | ⟨a, ⟨x, _, hx⟩, ha⟩
        · omega
        · omega
      · intro d hd
        simp at hd
      · intro d hd
        simp only [List.mem_cons, reduceCtorEq, List.mem_append, List.mem_map, and_false,
          exists_false, InitEvent.divide.injEq, List.not_mem_nil, or_false, false_or] at hd
        rw [hd]
        exact hlastpos
      · intro d hd
        simp at hd
      · simp only [List.filterMap_cons, InitEvent.slot?, List.filterMap_append,
          filterMap_slot_read, List.filterMap_nil, List.nil_append, hkm]
        rfl
    · simp only [hfin, if_false]
      have hcs0 : cs ≠ 0 := by omega
      simp only [hcs0, if_false]
      by_cases hemit : (i + 1) % cs = 0
      · -- the block is complete: `i + 1 = (m + 1) * cs`
        simp only [hemit, if_true]
        have hi1 : i + 1 = m * cs + cs := by
          obtain ⟨r, hr⟩ : ∃ r, i = m * cs + r := ⟨i - m * cs, by omega⟩
          have hrlt : r < cs := by omega
          have := (succ_mod_eq_zero_iff m cs r hrlt).mp (by rw [← hr]; exact hemit)
          omega
        have hmul : (m + 1) * cs = m * cs + cs := by rw [Nat.add_mul, Nat.one_mul]
        obtain ⟨k1, k2, k3, k4, k5⟩ := ih (i + 1) (m + 1) (by omega) (by omega) (by omega)
          (fun _ => by omega) (by omega)
        refine ⟨?_, ?_, ?_, ?_, ?_⟩
        · intro j hj
          simp only [List.mem_cons, InitEvent.read.injEq, reduceCtorEq, false_or] at hj
          rcases hj with h | h
          · omega
          · exact k1 j h
        · intro d hd
          simp only [List.mem_cons, reduceCtorEq, InitEvent.remainder.injEq, false_or] at hd
          rcases hd with h | h
          · omega
          · exact k2 d h
        · intro d hd
          simp only [List.mem_cons, reduceCtorEq, InitEvent.divide.injEq, false_or] at hd
          rcases hd with h | h
          · rw [h]; exact_mod_cast hcs
          · exact k3 d h
        · intro d hd
          simp only [List.mem_cons, reduceCtorEq, false_or] at hd
          exact k4 d hd
        · simp only [List.filterMap_cons, InitEvent.slot?, k5]
          have : k - m = (k - (m + 1)) + 1 := by omega
          rw [this, List.range'_succ]
      · simp only [hemit, if_false]
        have hi1 : i + 1 < m * cs + cs := by
          obtain ⟨r, hr⟩ : ∃ r, i = m * cs + r := ⟨i - m * cs, by omega⟩
          have hrlt : r < cs := by omega
          have := (succ_mod_eq_zero_iff m cs r hrlt).not.mp (by rw [← hr]; exact hemit)
          omega
        obtain ⟨k1, k2, k3, k4, k5⟩ := ih (i + 1) m (by omega) hi1 hm
          (fun h => absurd h hfin) (by omega)
        refine ⟨?_, ?_, ?_, ?_, ?_⟩
        · intro j hj
          simp only [List.mem_cons, InitEvent.read.injEq, reduceCtorEq, false_or] at hj
          rcases hj with h | h
          · omega
          · exact k1 j h
        · intro d hd
          simp only [List.mem_cons, reduceCtorEq, InitEvent.remainder.injEq, false_or] at hd
          rcases hd with h | h
          · omega
          · exact k2 d h
        · intro d hd
          simp only [List.mem_cons, reduceCtorEq, false_or] at hd
          exact k3 d hd
        · intro d hd
          simp only [List.mem_cons, reduceCtorEq, false_or] at hd
          exact k4 d hd
        · simp only [List.filterMap_cons, InitEvent.slot?, k5]
/-- Claim C16. On a valid input (`1 ≤ k < N`, so also on `N = k + 1`)
`getInitialCentroids` reads `data` at indices below `N` only, divides and takes
remainders by positive values only (`blockSize ≥ 1` and
`N - blockSize*(k-1) ≥ 1`), writes the slots `0, .., k-1` once each, in this
order, and leaves its loop with `numComputed = k`. -/
theorem getInitialCentroids_safe (k : Nat) (data : List Point) (hk : 1 ≤ k)
    (hN : k < data.length) :
    (∀ j, InitEvent.read j ∈ getInitialCentroidsEvents k data → j < data.length) ∧
    (∀ d, InitEvent.intDiv d ∈ getInitialCentroidsEvents k data → 0 < d) ∧
    (∀ d, InitEvent.remainder d ∈ getInitialCentroidsEvents k data → 0 < d) ∧
    (∀ d, InitEvent.divide d ∈ getInitialCentroidsEvents k data → 0 < d) ∧
    1 ≤ data.length / k ∧
    1 ≤ data.length - data.length / k * (k - 1) ∧
    (getInitialCentroidsEvents k data).filterMap InitEvent.slot? = List.range k ∧
    (∃ st, initLoop k (data.length / k) data.length 0 data
        { sum := zeroSum, numComputed := 0,
          new_centroid := List.replicate k (FVal.fin 0, FVal.fin 0) } = some st ∧
      st.numComputed = k ∧ st.new_centroid.length = k ∧
      getInitialCentroids k data = some st.new_centroid) := by
  have hk0 : k ≠ 0 := by omega
  have hcs : 0 < data.length / k := Nat.div_pos (by omega) (by omega)
  have hmul : k * (data.length / k) ≤ data.length := Nat.mul_div_le _ _
  obtain ⟨e1, e2, e3, e4, e5⟩ := initEvents_inv k (data.length / k) data.length hcs hmul
    data.length 0 0 (by simp) (by simpa using hcs) (by simpa using hk) (fun _ => by simp)
    (by simp)
  have hlast : 1 ≤ data.length - data.length / k * (k - 1) := by
    obtain ⟨m, rfl⟩ : ∃ m, k = m + 1 := ⟨k - 1, by omega⟩
    rw [Nat.add_mul, Nat.one_mul, Nat.mul_comm] at hmul
    simp only [Nat.add_sub_cancel]
    omega
  refine ⟨?_, ?_, ?_, ?_, hcs, hlast, ?_, ?_⟩
  · intro j hj
    simp only [getInitialCentroidsEvents, hk0, if_false, List.mem_cons, reduceCtorEq,
      false_or] at hj
    exact e1 j hj
  · intro d hd
    simp only [getInitialCentroidsEvents, hk0, if_false, List.mem_cons,
      InitEvent.intDiv.injEq] at hd
    rcases hd with h | h
    · omega
    · exact absurd h (e4 d)
  · intro d hd
    simp only [getInitialCentroidsEvents, hk0, if_false, List.mem_cons, reduceCtorEq,
      false_or] at hd
    exact e2 d hd
  · intro d hd
    simp only [getInitialCentroidsEvents, hk0, if_false, List.mem_cons, reduceCtorEq,
      false_or] at hd
    exact e3 d hd
  · simp only [getInitialCentroidsEvents, hk0, if_false, List.filterMap_cons, InitEvent.slot?,
      e5, Nat.sub_zero, List.range_eq_range']
  · obtain ⟨nc, h1, h2, _, _⟩ := initLoop_inv k (data.length / k) hcs data hmul data [] []
      { sum := zeroSum, numComputed := 0,
        new_centroid := List.replicate k (FVal.fin 0, FVal.fin 0) }
      (by simp) (by simp) (by simpa using hcs) (by simpa using hk) (fun _ => rfl) rfl
      (by simp) (fun b hb => absurd hb (by simp))
    simp only [List.length_nil, Nat.add_zero] at h1
    refine ⟨_, h1, rfl, h2, ?_⟩
    simp [getInitialCentroids, hk0, h1]

theorem getInitialCentroids_safe_witness :
    (getInitialCentroidsEvents 4 [(0, 0), (1, 1), (2, 2), (4, 4), (6, 6)]).filterMap
      InitEvent.slot? = List.range 4 :=
  (getInitialCentroids_safe 4 [(0, 0), (1, 1), (2, 2), (4, 4), (6, 6)] (by decide)
    (by decide)).2.2.2.2.2.2.1

/-! ## Translation of the input -/

/-- Claim C18, evaluated on the six points of scenario 1 and the offset
`(100, 100)`: on the original points `kmeans` returns `[0,0,0,1,1,1]`, on the
shifted points it returns the all-zero vector after one iteration.  The last
initial centroid of the shifted points is `(147, 147)`, not the last initial
centroid `(41/3, 41/3)` of the original points shifted by `(100, 100)`, because
the first point of the final block is added twice. -/
theorem kmeans_shift_changes_result :
    kmeans 2 [(0, 0), (1, 0), (0, 1), (10, 10), (11, 10), (10, 11)] 2
      = some ([0, 0, 0, 1, 1, 1], 2) ∧
    shift 100 100 [(0, 0), (1, 0), (0, 1), (10, 10), (11, 10), (10, 11)]
      = [(100, 100), (101, 100), (100, 101), (110, 110), (111, 110), (110, 111)] ∧
    kmeans 2 (shift 100 100 [(0, 0), (1, 0), (0, 1), (10, 10), (11, 10), (10, 11)]) 2
      = some ([0, 0, 0, 0, 0, 0], 1) ∧
    getInitialCentroids 2 [(0, 0), (1, 0), (0, 1), (10, 10), (11, 10), (10, 11)]
      = some [(FVal.fin (1 / 3), FVal.fin (1 / 3)), (FVal.fin (41 / 3), FVal.fin (41 / 3))] ∧
    getInitialCentroids 2
        (shift 100 100 [(0, 0), (1, 0), (0, 1), (10, 10), (11, 10), (10, 11)])
      = some [(FVal.fin (301 / 3), FVal.fin (301 / 3)), (FVal.fin 147, FVal.fin 147)] := by
  decide!

end KMeans
